import Mathlib

/-!
Shallow embedding of the `nordvpn-switcher-pro` sources
(`linux_controller.py` and `windows_controller.py`).

String primitives below model the Python `str` operations the sources use.
Case folding and whitespace are modelled over ASCII, which covers every
character that can appear in the CLI text, process names and IP strings the
sources manipulate (Python additionally folds non-ASCII letters and strips a
few rare Unicode whitespace code points).
-/

/-- Model of the whitespace characters recognised by Python `str.strip()`
(ASCII part: space, tab, newline, carriage return, vertical tab, form feed). -/
def pyIsWs (c : Char) : Bool :=
  c == ' ' || c == '\t' || c == '\n' || c == '\r' || c == '\x0b' || c == '\x0c'

/-- Model of Python `str.strip()` on a character list. -/
def pyStripL (cs : List Char) : List Char :=
  ((cs.dropWhile pyIsWs).reverse.dropWhile pyIsWs).reverse

/-- Model of Python `str.lower` on one character (ASCII fold). -/
def pyToLower (c : Char) : Char :=
  if 'A' ≤ c ∧ c ≤ 'Z' then Char.ofNat (c.toNat + 32) else c

/-- Model of Python `str.lower()` on a character list. -/
def pyLowerL (cs : List Char) : List Char := cs.map pyToLower

/-- Model of Python `str.strip()`. -/
def pyStrip (s : String) : String := String.mk (pyStripL s.data)

/-- Model of Python `str.lower()`. -/
def pyLower (s : String) : String := String.mk (pyLowerL s.data)

/-- Does `ns` occur at the start of the second list? (helper for substring
containment, Python `str.startswith`). -/
def startsWithL : List Char → List Char → Bool
  | [], _ => true
  | _ :: _, [] => false
  | n :: ns, h :: hs => n == h && startsWithL ns hs

/-- Model of the Python substring test `needle in hay` on character lists. -/
def hasSubL (ns : List Char) : List Char → Bool
  | [] => ns.isEmpty
  | h :: t => startsWithL ns (h :: t) || hasSubL ns t

/-- Model of the Python substring test `needle in hay`. -/
def pyIn (needle hay : String) : Bool := hasSubL needle.data hay.data

/-- Model of Python `s.split(sep, 1)` restricted to a one-character separator:
`none` when the separator does not occur, otherwise the parts before and after
its first occurrence. -/
def splitFirstL (sep : Char) : List Char → Option (List Char × List Char)
  | [] => none
  | c :: rest =>
    if c == sep then some ([], rest)
    else
      match splitFirstL sep rest with
      | none => none
      | some (a, b) => some (c :: a, b)

/-- Accumulator-passing worker for `pySplitChar`. -/
def pySplitCharAux (sep : Char) : List Char → List Char → List (List Char)
  | acc, [] => [acc.reverse]
  | acc, c :: rest =>
    if c == sep then acc.reverse :: pySplitCharAux sep [] rest
    else pySplitCharAux sep (c :: acc) rest

/-- Model of Python `s.split(sep)` (no maxsplit) for a one-character separator. -/
def pySplitChar (sep : Char) (cs : List Char) : List (List Char) :=
  pySplitCharAux sep [] cs

/-- Model of Python `sep.join(parts)` for a one-character separator. -/
def joinChar (sep : Char) : List (List Char) → List Char
  | [] => []
  | [p] => p
  | p :: q :: rest => p ++ sep :: joinChar sep (q :: rest)

/-- Accumulator-passing worker for `pySplitlinesL`.  The Boolean records
that the previous character was a line-ending `'\r'`, so that an immediately
following `'\n'` is part of the same `"\r\n"` boundary and is swallowed. -/
def pySplitlinesAux : Bool → List Char → List Char → List (List Char)
  | _, acc, [] => if acc.isEmpty then [] else [acc.reverse]
  | afterCR, acc, c :: rest =>
    if afterCR = true ∧ c = '\n' then pySplitlinesAux false acc rest
    else if c = '\n' then acc.reverse :: pySplitlinesAux false [] rest
    else if c = '\r' then acc.reverse :: pySplitlinesAux true [] rest
    else pySplitlinesAux false (c :: acc) rest

/-- Model of Python `str.splitlines()` on the line boundaries that occur in
CLI text (`\n`, `\r\n`, `\r`); a trailing terminator produces no extra line. -/
def pySplitlinesL (cs : List Char) : List (List Char) :=
  pySplitlinesAux false [] cs

/-- Model of Python `s.count(c)` for a one-character argument. -/
def countCharL (c : Char) (cs : List Char) : Nat := cs.countP (· == c)

/-- Model of a Python `dict` write `m[k] = v` on an insertion-ordered
association list: an existing binding is updated in place, a new key is
appended. -/
def dictSet {α : Type} (m : List (String × α)) (k : String) (v : α) : List (String × α) :=
  if m.any (fun p => p.1 == k) then m.map (fun p => if p.1 == k then (k, v) else p)
  else m ++ [(k, v)]

/-- Model of Python `m.get(k)` on the association lists built by `dictSet`. -/
def dictGet {α : Type} (m : List (String × α)) (k : String) : Option α :=
  (m.find? (fun p => p.1 == k)).map (fun p => p.2)

/-- The two exception classes of the package (`exceptions.py`):
`ConfigurationError` and `NordVpnCliError`. -/
inductive VpnError where
  | configurationError (msg : String)
  | nordVpnCliError (msg : String)
deriving DecidableEq, Repr

namespace LinuxVpnController

/-- One iteration of the parsing loop of `_parse_status_output`: a line
without a colon is skipped, otherwise the line is split on its first colon
and `parsed[key.strip().lower()] = value.strip()` is performed. -/
def parseLine (parsed : List (String × String)) (line : List Char) : List (String × String) :=
  match splitFirstL ':' line with
  | none => parsed
  | some (key, value) =>
      dictSet parsed (pyLower (pyStrip (String.mk key))) (pyStrip (String.mk value))

/-- Translation of `LinuxVpnController._parse_status_output`. -/
def _parse_status_output (output : String) : List (String × String) :=
  (pySplitlinesL output.data).foldl parseLine []

/-- Translation of `LinuxVpnController.get_status`, as a function of the raw
`nordvpn status` output (`parsed.get("status", "Unknown")`). -/
def get_status (output : String) : String :=
  (dictGet (_parse_status_output output) "status").getD "Unknown"

/-- Translation of `LinuxVpnController._is_connected`, as a function of the
raw `nordvpn status` output. -/
def _is_connected (output : String) : Bool :=
  let status := pyLower (pyStrip (get_status output))
  status == "connected" || (pyIn "connected" status && !pyIn "disconnected" status)

/-- The timeout message raised by `_wait_for_status` when the deadline
elapses. -/
def waitTimeoutMsg (connected : Bool) (timeout : Nat) : String :=
  "NordVPN did not become " ++ (if connected then "connected" else "disconnected") ++
    " within " ++ toString timeout ++ " seconds."

/-- Translation of `LinuxVpnController._wait_for_status`.  The external world
is an oracle `statusQuery` giving, per polling iteration, either the raw
`nordvpn status` output or the exception the query raised; `fuel` is the
number of loop iterations the `time.time() < end_time` deadline admits and
`k` the index of the current iteration.  A `NordVpnCliError` from the query
is swallowed (`except NordVpnCliError: pass`) and polling continues; any
other exception propagates. -/
def _wait_for_status (statusQuery : Nat → Except VpnError String) (connected : Bool)
    (timeout : Nat) : Nat → Nat → Except VpnError Unit
  | 0, _ => .error (.nordVpnCliError (waitTimeoutMsg connected timeout))
  | fuel + 1, k =>
    match statusQuery k with
    | .ok output =>
        if _is_connected output == connected then .ok ()
        else _wait_for_status statusQuery connected timeout fuel (k + 1)
    | .error (.nordVpnCliError _) => _wait_for_status statusQuery connected timeout fuel (k + 1)
    | .error (.configurationError m) => .error (.configurationError m)

/-- Translation of `LinuxVpnController.connect`: run the connect command
(whose outcome `connectCmd` the environment supplies), propagating its error
if it fails, then poll with `_wait_for_status(connected=True)` (default
timeout 45 seconds). -/
def connect (connectCmd : Except VpnError String)
    (statusQuery : Nat → Except VpnError String) (fuel : Nat) : Except VpnError Unit :=
  match connectCmd with
  | .error e => .error e
  | .ok _ => _wait_for_status statusQuery true 45 fuel 0

/-- Translation of `LinuxVpnController.disconnect`: run the disconnect
command then poll with `_wait_for_status(connected=False)`. -/
def disconnect (disconnectCmd : Except VpnError String)
    (statusQuery : Nat → Except VpnError String) (fuel : Nat) : Except VpnError Unit :=
  match disconnectCmd with
  | .error e => .error e
  | .ok _ => _wait_for_status statusQuery false 45 fuel 0

end LinuxVpnController

/-!
Model of the part of CPython's `ipaddress` module that
`WindowsVpnController._normalize_ip` relies on: `ip_address(str)` (trying
`IPv4Address` first, then `IPv6Address`) and `str()` of the resulting
address.  The zone-id handling of `IPv6Address` is omitted because
`_normalize_ip` strips `%`-suffixes before ever calling `ip_address`.
-/

/-- Worker for `digitsRevB`: digit values of `n` in base `b2 + 2`, least
significant first, structurally recursive on a fuel argument (any fuel of at
least `n` gives the same answer, so the recursion never runs dry below). -/
def digitsRevFuel (b2 : Nat) : Nat → Nat → List Nat
  | _, 0 => []
  | 0, _ + 1 => []
  | fuel + 1, n + 1 => (n + 1) % (b2 + 2) :: digitsRevFuel b2 fuel ((n + 1) / (b2 + 2))

/-- Digit values of `n` in base `b2 + 2`, least significant first; `[]` for 0.
The base is passed as `b2 + 2` so that it is at least 2. -/
def digitsRevB (b2 n : Nat) : List Nat := digitsRevFuel b2 n n

/-- Digit values of `n` in base `b2 + 2`, most significant first; `[0]` for 0
(matching `'%x' % 0 == '0'` and `str(0) == '0'`). -/
def digitsOfB (b2 : Nat) (n : Nat) : List Nat :=
  if n = 0 then [0] else (digitsRevB b2 n).reverse

/-- The lowercase hex digit character for a value below 16 (`'%x'`). -/
def hexDigitChar (d : Nat) : Char :=
  if d < 10 then Char.ofNat (48 + d) else Char.ofNat (87 + d)

/-- Model of CPython `'%x' % n`: lowercase hex, no leading zeros. -/
def hexStrL (n : Nat) : List Char := (digitsOfB 14 n).map hexDigitChar

/-- Model of CPython `str(n)` for a natural number: decimal digits. -/
def decStrL (n : Nat) : List Char := (digitsOfB 8 n).map (fun d => Char.ofNat (48 + d))

/-- The hex digits accepted by `ipaddress._parse_hextet`
(`frozenset('0123456789ABCDEFabcdef')`). -/
def isHexDigitPy (c : Char) : Bool :=
  ('0' ≤ c && c ≤ '9') || ('a' ≤ c && c ≤ 'f') || ('A' ≤ c && c ≤ 'F')

/-- ASCII decimal digit test (`str.isdigit` on the octet strings at hand). -/
def isDecDigit (c : Char) : Bool := '0' ≤ c && c ≤ '9'

/-- Value of one hex digit character (used only on characters accepted by
`isHexDigitPy`). -/
def hexCharVal (c : Char) : Nat :=
  if '0' ≤ c ∧ c ≤ '9' then c.toNat - 48
  else if 'a' ≤ c ∧ c ≤ 'f' then c.toNat - 87
  else if 'A' ≤ c ∧ c ≤ 'F' then c.toNat - 55
  else 0

/-- Model of `int(s, 16)` on hex-digit strings. -/
def hexValL (cs : List Char) : Nat := cs.foldl (fun a c => a * 16 + hexCharVal c) 0

/-- Model of `int(s, 10)` on decimal-digit strings. -/
def decValL (cs : List Char) : Nat := cs.foldl (fun a c => a * 10 + (c.toNat - 48)) 0

/-- Model of `ipaddress._BaseV6._parse_hextet`: between one and four hex
digits (an empty string makes `int('', 16)` raise). -/
def _parse_hextet (cs : List Char) : Option Nat :=
  if cs.all isHexDigitPy ∧ cs.length ≤ 4 ∧ cs ≠ [] then some (hexValL cs) else none

/-- Model of `ipaddress._BaseV4._parse_octet`: non-empty, ASCII decimal
digits only, at most three of them, no leading zero, value at most 255. -/
def _parse_octet (cs : List Char) : Option Nat :=
  if cs = [] then none
  else if ¬ cs.all isDecDigit then none
  else if 3 < cs.length then none
  else if cs.headD ' ' = '0' ∧ 1 < cs.length then none
  else
    let v := decValL cs
    if 255 < v then none else some v

/-- Model of the `IPv4Address` string parser: exactly four octets joined by
dots, folded most-significant first. -/
def parseIPv4L (cs : List Char) : Option Nat :=
  let octets := pySplitChar '.' cs
  if octets.length ≠ 4 then none
  else
    match octets.mapM _parse_octet with
    | none => none
    | some vs => some (vs.foldl (fun a v => a * 256 + v) 0)

/-- Model of `str(IPv4Address)`: the four octets in decimal, joined by dots. -/
def ipv4StrL (n : Nat) : List Char :=
  joinChar '.'
    [decStrL (n / 16777216 % 256), decStrL (n / 65536 % 256),
     decStrL (n / 256 % 256), decStrL (n % 256)]

/-- The eight 16-bit groups of an IPv6 address value, most significant
first (the chunks of `'%032x' % ip_int`). -/
def v6Groups (n : Nat) : List Nat :=
  [n / 2 ^ 112 % 65536, n / 2 ^ 96 % 65536, n / 2 ^ 80 % 65536, n / 2 ^ 64 % 65536,
   n / 2 ^ 48 % 65536, n / 2 ^ 32 % 65536, n / 2 ^ 16 % 65536, n % 65536]

/-- The scanning loop of `ipaddress._BaseV6._compress_hextets`: finds the
longest (leftmost on ties) run of `'0'` hextets.  CPython's `-1` sentinels
for `best_doublecolon_start` / `doublecolon_start` (paired with length 0)
are modelled as `none`. -/
def compressScan : List (List Char) → Nat → Option (Nat × Nat) → Option (Nat × Nat) →
    Option (Nat × Nat)
  | [], _, best, _ => best
  | h :: rest, idx, best, cur =>
    if h = ['0'] then
      let cur' := match cur with
        | none => (idx, 1)
        | some (s, l) => (s, l + 1)
      let best' := if (match best with | none => 0 | some (_, l) => l) < cur'.2 then some cur'
        else best
      compressScan rest (idx + 1) best' (some cur')
    else compressScan rest (idx + 1) best none

/-- Model of `ipaddress._BaseV6._compress_hextets`: splice the best run of
`'0'` hextets (when it is longer than one) into a single empty hextet,
adding an empty bookend when the run touches either end. -/
def _compress_hextets (hextets : List (List Char)) : List (List Char) :=
  match compressScan hextets 0 none none with
  | some (s, l) =>
    if 1 < l then
      let hs := if s + l = hextets.length then hextets ++ [[]] else hextets
      let spliced := hs.take s ++ [[]] ++ hs.drop (s + l)
      if s = 0 then [] :: spliced else spliced
    else hextets
  | none => hextets

/-- Model of `str(IPv6Address)` (`_string_from_ip_int`): hex groups with the
best zero run compressed, joined by colons. -/
def ipv6StrL (n : Nat) : List Char :=
  joinChar ':' (_compress_hextets ((v6Groups n).map hexStrL))

/-- The indices strictly inside `parts` holding an empty part — the
candidates for CPython's `skip_index` (its loop errors when there are two). -/
def middleEmpties (parts : List (List Char)) : List Nat :=
  (List.range parts.length).filter fun i =>
    decide (0 < i) && decide (i + 1 < parts.length) && decide (parts.getD i [' '] = [])

/-- The accumulation loop of `_ip_int_from_string`: `ip_int <<= 16;
ip_int |= _parse_hextet(part)` per part (the hextet value is below 2^16, so
the or equals addition). -/
def foldHextets : List (List Char) → Nat → Option Nat
  | [], acc => some acc
  | p :: rest, acc =>
    match _parse_hextet p with
    | none => none
    | some v => foldHextets rest (acc * 65536 + v)

/-- Model of `ipaddress._BaseV6._ip_int_from_string` after the optional
trailing-IPv4 expansion: at most nine parts, at most one `''` strictly
inside, `parts_hi`/`parts_lo` bookkeeping for a leading or trailing `::`,
at least one group skipped when `::` is present, exactly eight parts with
non-empty ends otherwise. -/
def parseIPv6core (parts : List (List Char)) : Option Nat :=
  if 9 < parts.length then none
  else
    match middleEmpties parts with
    | _ :: _ :: _ => none
    | [si] =>
      let hi0 := si
      let lo0 := parts.length - si - 1
      match (if parts.headD [' '] = [] then (if hi0 - 1 = 0 then some 0 else none)
             else some hi0),
            (if parts.getLastD [' '] = [] then (if lo0 - 1 = 0 then some 0 else none)
             else some lo0) with
      | some hi, some lo =>
        if 8 - (hi + lo) < 1 then none
        else
          match foldHextets (parts.take hi) 0 with
          | none => none
          | some acc => foldHextets (parts.drop (parts.length - lo)) (acc * 65536 ^ (8 - (hi + lo)))
      | _, _ => none
    | [] =>
      if parts.length ≠ 8 then none
      else if parts.headD [' '] = [] then none
      else if parts.getLastD [' '] = [] then none
      else foldHextets parts 0

/-- Model of the `IPv6Address` string parser: split on colons, expand a
dotted last part through the IPv4 parser, then `parseIPv6core`. -/
def parseIPv6L (cs : List Char) : Option Nat :=
  let parts := pySplitChar ':' cs
  if parts.length < 3 then none
  else
    let last := parts.getLastD []
    if last.contains '.' then
      match parseIPv4L last with
      | none => none
      | some v4 =>
          parseIPv6core (parts.dropLast ++ [hexStrL (v4 / 65536 % 65536), hexStrL (v4 % 65536)])
    else parseIPv6core parts

/-- A parsed `ipaddress` address object. -/
inductive PyIpAddr where
  | v4 (n : Nat)
  | v6 (n : Nat)
deriving DecidableEq, Repr

/-- Model of `ipaddress.ip_address(str)`: try `IPv4Address`, then
`IPv6Address`. -/
def ip_address (cs : List Char) : Option PyIpAddr :=
  match parseIPv4L cs with
  | some n => some (.v4 n)
  | none =>
    match parseIPv6L cs with
    | some n => some (.v6 n)
    | none => none

/-- Model of `str(...)` on a parsed address. -/
def ipAddrStrL : PyIpAddr → List Char
  | .v4 n => ipv4StrL n
  | .v6 n => ipv6StrL n

/-- Python truthiness of an optional string (`None` and `''` are falsy). -/
def pyTruthy : Option String → Bool
  | none => false
  | some s => s ≠ ""

/-- Model of Python `a or b` on optional strings. -/
def pyOrStr (a b : Option String) : Option String := if pyTruthy a then a else b

/-- How a process reacts to `terminate()` / `kill()` followed by
`wait(timeout=5)` in `close`. -/
inductive ProcBehavior where
  | exits
  | hangs
  | osErr
deriving DecidableEq, Repr

/-- One entry of `psutil.process_iter(["name"])`: the reported name (which
`proc.info.get("name")` may return as `None`) and the process's reaction to
close attempts. -/
structure ProcInfo where
  name : Option String
  behavior : ProcBehavior
deriving DecidableEq, Repr

/-- A termination action actually applied to a process. -/
inductive CloseAct where
  | terminateAct
  | killAct
deriving DecidableEq, Repr

/-- The actions `close` applies to one matched process: `kill` when forced;
otherwise `terminate`, escalating to a single `kill` when `wait(timeout=5)`
raises `TimeoutExpired`.  A process whose terminate/kill call raises an
OS-level error gets no completed action (the exception is caught and
logged). -/
def procCloseActs (force : Bool) (b : ProcBehavior) : List CloseAct :=
  match b with
  | .exits => if force then [.killAct] else [.terminateAct]
  | .hangs => if force then [.killAct] else [.terminateAct, .killAct]
  | .osErr => []

namespace LinuxVpnController

/-- Translation of `LinuxVpnController.close`: per process, whether it
matched (`(proc.info.get("name") or "").lower() in {"nordvpn", "nordvpnd"}`)
and the actions applied to it, plus the `found` flag.  All per-process
exceptions are caught, so the function is total and never reports an
error. -/
def close (procs : List ProcInfo) (force : Bool) : List (Bool × List CloseAct) × Bool :=
  (procs.map fun p =>
      let matched := ["nordvpn", "nordvpnd"].contains (pyLower (p.name.getD ""))
      (matched, if matched then procCloseActs force p.behavior else []),
   procs.any fun p => ["nordvpn", "nordvpnd"].contains (pyLower (p.name.getD "")))

end LinuxVpnController

namespace WindowsVpnController

/-- Translation of `WindowsVpnController._normalize_ip`.  The slice
`candidate[1:candidate.index("]")]` is `takeWhile (· ≠ ']')` of the tail
because the guard guarantees the first character is `'['`;
`split("%", 1)[0]` and `split("/", 1)[0]` are `takeWhile`; under the guard
`candidate.count(":") == 1`, `rsplit(":", 1)[0]` is the part before the
unique colon. -/
def _normalize_ip (value : Option String) : Option String :=
  match value with
  | none => none
  | some v =>
    if v = "" then none
    else
      let candidate := pyStripL v.data
      if candidate = [] ∨ pyLowerL candidate ∈ ["n/a".data, "none".data, "-".data] then none
      else
        let c1 := if candidate.headD ' ' = '[' ∧ candidate.contains ']' then
            (candidate.drop 1).takeWhile (· ≠ ']')
          else candidate
        let c2 := if c1.contains '%' then c1.takeWhile (· ≠ '%') else c1
        let c3 := if c2.contains '/' then c2.takeWhile (· ≠ '/') else c2
        match ip_address c3 with
        | some a => some (String.mk (ipAddrStrL a))
        | none =>
          if countCharL ':' c3 = 1 ∧ c3.contains '.' then
            match ip_address (c3.takeWhile (· ≠ ':')) with
            | some a => some (String.mk (ipAddrStrL a))
            | none => none
          else none

/-- One value of `self._server_ip_lookup` (the five fields
`set_server_ip_lookup` copies out of a server record). -/
structure ServerEntry where
  id : Option String
  name : Option String
  hostname : Option String
  station : Option String
  status : Option String
deriving DecidableEq, Repr

/-- Model of `self._server_ip_lookup.get(key)`. -/
def lookupGet (m : List (String × ServerEntry)) (k : String) : Option ServerEntry :=
  (m.find? (fun p => p.1 == k)).map (fun p => p.2)

/-- Translation of `WindowsVpnController._resolve_status_snapshot` as a
function of the lookup table and of the public IP the external lookup
returned.  Values are `Option String` because `snapshot["current server"]`
is `hostname or name`, which is `None` when both are falsy. -/
def _resolve_status_snapshot (lookup : List (String × ServerEntry))
    (currentIp : Option String) : List (String × Option String) :=
  let normalizedIp := _normalize_ip currentIp
  let server := if pyTruthy normalizedIp then lookupGet lookup (normalizedIp.getD "") else none
  let snapshot : List (String × Option String) :=
    [("status", some (if server.isSome then "Connected" else "Disconnected"))]
  let snapshot := if pyTruthy currentIp then dictSet snapshot "current ip" currentIp else snapshot
  match server with
  | none => snapshot
  | some srv =>
    let snapshot := dictSet snapshot "current server" (pyOrStr srv.hostname srv.name)
    let snapshot := if pyTruthy srv.name then dictSet snapshot "server name" srv.name else snapshot
    if pyTruthy srv.hostname then dictSet snapshot "server hostname" srv.hostname else snapshot

/-- Translation of `WindowsVpnController.get_status`
(`snapshot.get("status", "Unknown")`); the stored status value is always a
string, the outer `Option` mirrors the snapshot's value type. -/
def get_status (lookup : List (String × ServerEntry)) (currentIp : Option String) :
    Option String :=
  (dictGet (_resolve_status_snapshot lookup currentIp) "status").getD (some "Unknown")

/-- Translation of `WindowsVpnController.get_connected_server`
(`snapshot.get("current server")`, `None` both when the key is absent and
when it holds `None`). -/
def get_connected_server (lookup : List (String × ServerEntry)) (currentIp : Option String) :
    Option String :=
  (dictGet (_resolve_status_snapshot lookup currentIp) "current server").getD none

/-- The error message of `_wait_for_cli_ready` on timeout. -/
def notReadyMsg (timeout : Nat) : String :=
  "NordVPN did not reach steady state within " ++ toString timeout ++
    " seconds. Please ensure the application is running and logged in."

/-- Translation of `WindowsVpnController._wait_for_cli_ready` at the level
the temporal claims need: `ready` is the global `_CLI_IS_READY` flag at call
time and `stabilizes` states whether the memory-stability poll would reach a
stable window within the timeout.  Result: (did the launch-and-stabilize
procedure run, new flag value, outcome). -/
def _wait_for_cli_ready (ready : Bool) (stabilizes : Bool) (timeout : Nat) :
    Bool × Bool × Except VpnError Unit :=
  if ready then (false, true, .ok ())
  else if stabilizes then (true, true, .ok ())
  else (true, false, .error (.nordVpnCliError (notReadyMsg timeout)))

/-- The sliding-window update of the stability poll: `samples.append(mem_mb)`
followed by `samples.pop(0)` when the window capacity is exceeded. -/
def updatedSamples (stability_window : Nat) (samples : List ℚ) (mem_mb : ℚ) : List ℚ :=
  let s := samples ++ [mem_mb]
  if stability_window < s.length then s.drop 1 else s

/-- `max(abs(s - avg) for s in samples)`; the fold base 0 is never the
maximum on a non-empty list since every `|s - avg|` is non-negative.
Memory sizes are modelled as rationals (CPython floats on these magnitudes
behave like exact arithmetic up to rounding, which the claims do not
touch). -/
def maxDev (samples : List ℚ) (avg : ℚ) : ℚ :=
  (samples.map fun s => |s - avg|).foldr max 0

/-- The stability decision inside `_wait_for_cli_ready`'s polling loop, for
one sampling state: the freshly appended sample `mem_mb`, the updated
window `samples`.  Declared stable exactly when the guard
`mem_mb > threshold_mb and len(samples) == stability_window` holds and
`(max_dev / avg) * 100 <= variance_pct`. -/
def stableAt (threshold_mb : ℚ) (stability_window : Nat) (variance_pct : ℚ)
    (samples : List ℚ) (mem_mb : ℚ) : Bool :=
  if threshold_mb < mem_mb ∧ samples.length = stability_window then
    let avg := samples.sum / (stability_window : ℚ)
    decide ((maxDev samples avg / avg) * 100 ≤ variance_pct)
  else false

/-- Translation of `WindowsVpnController._run_command`: the readiness gate
runs first; when it fails its error propagates, otherwise the CLI
invocation's own outcome (supplied by the environment) is returned.  The
first component is the new `_CLI_IS_READY` flag. -/
def _run_command (ready stabilizes : Bool) (cmdOutcome : Except VpnError String) :
    Bool × Except VpnError String :=
  match _wait_for_cli_ready ready stabilizes 60 with
  | (_, ready', .ok ()) => (ready', cmdOutcome)
  | (_, ready', .error e) => (ready', .error e)

/-- Translation of `WindowsVpnController.connect`: build the argument list
and call `_run_command` — there is no status polling afterwards, so the
result does not depend on any observed connection state. -/
def connect (ready stabilizes : Bool) (cmdOutcome : Except VpnError String) :
    Bool × Except VpnError Unit :=
  let r := _run_command ready stabilizes cmdOutcome
  (r.1, r.2.map fun _ => ())

/-- Translation of `WindowsVpnController.disconnect`: a `_run_command` call
with the `-d` argument and no status polling. -/
def disconnect (ready stabilizes : Bool) (cmdOutcome : Except VpnError String) :
    Bool × Except VpnError Unit :=
  let r := _run_command ready stabilizes cmdOutcome
  (r.1, r.2.map fun _ => ())

/-- Translation of `WindowsVpnController.close`: per process, whether it
matched (`proc.info["name"] == "NordVPN.exe"`, an exact, case-sensitive
comparison) and the actions applied; the `found` flag; and the new
`_CLI_IS_READY` flag (reset only when some process matched). -/
def close (procs : List ProcInfo) (force : Bool) (ready : Bool) :
    List (Bool × List CloseAct) × Bool × Bool :=
  (procs.map fun p =>
      let matched := p.name == some "NordVPN.exe"
      (matched, if matched then procCloseActs force p.behavior else []),
   procs.any fun p => p.name == some "NordVPN.exe",
   if procs.any fun p => p.name == some "NordVPN.exe" then false else ready)

/-- The events that touch the global `_CLI_IS_READY` flag during a process
lifetime: a CLI command (whose `_wait_for_cli_ready` gate may launch and
stabilize) and a `close` call. -/
inductive WinEvent where
  | runCmd (stabilizes : Bool) (cmdOutcome : Except VpnError String)
  | closeEvt (procs : List ProcInfo) (force : Bool)

/-- Effect of one event on the readiness flag, together with whether the
launch-and-stabilize procedure ran during it. -/
def winStep (ready : Bool) : WinEvent → Bool × Bool
  | .runCmd st cmd => ((_run_command ready st cmd).1, (_wait_for_cli_ready ready st 60).1)
  | .closeEvt procs force => ((close procs force ready).2.2, false)

/-- The readiness flag after a sequence of events. -/
def winFlagAfter : Bool → List WinEvent → Bool
  | ready, [] => ready
  | ready, e :: rest => winFlagAfter (winStep ready e).1 rest

/-- How many times the launch-and-stabilize procedure ran along a sequence
of events. -/
def winLaunches : Bool → List WinEvent → Nat
  | _, [] => 0
  | ready, e :: rest =>
    (if (winStep ready e).2 then 1 else 0) + winLaunches (winStep ready e).1 rest

/-- Does the event reset the readiness flag (a `close` that found a
matching process)? -/
def resetsFlag : WinEvent → Bool
  | .runCmd _ _ => false
  | .closeEvt procs _ => procs.any fun p => p.name == some "NordVPN.exe"

end WindowsVpnController

/-- An output string that reads as "not yet in the desired state": for a
connect wait an output whose status is unknown, for a disconnect wait an
output that still reads connected.  Used to express that a swallowed CLI
error behaves exactly like such an observation. -/
def notYetOutput (connected : Bool) : String :=
  if connected then "" else "Status: Connected"

/-- The status-query oracle with every `NordVpnCliError` replaced by a
"desired state not yet reached" observation. -/
def maskCli (connected : Bool) (q : Nat → Except VpnError String) :
    Nat → Except VpnError String := fun i =>
  match q i with
  | .error (.nordVpnCliError _) => .ok (notYetOutput connected)
  | r => r

/-- Recomposition of 16-bit groups into an address value (most significant
group first). -/
def fromGroups (gs : List Nat) : Nat := gs.foldl (fun a g => a * 65536 + g) 0

/-!
## Theorems

Helper lemmas first, then one theorem per claim (with witnesses and
counterexamples where required).
-/

theorem splitFirstL_eq_none {sep : Char} {cs : List Char} :
    splitFirstL sep cs = none ↔ sep ∉ cs := by
  induction cs with
  | nil => simp [splitFirstL]
  | cons c rest ih =>
    by_cases h : c = sep
    · subst h
      simp [splitFirstL]
    · have hb : (c == sep) = false := beq_eq_false_iff_ne.mpr h
      cases hr : splitFirstL sep rest with
      | none =>
        have hsc : ¬ sep = c := fun hs => h hs.symm
        simp [splitFirstL, hb, hr, ih.mp hr, hsc]
      | some p =>
        have hmem : sep ∈ rest := by
          by_contra hmem
          rw [ih.mpr hmem] at hr
          cases hr
        simp [splitFirstL, hb, hr, hmem]

theorem splitFirstL_append {sep : Char} (a b : List Char) :
    sep ∉ a → splitFirstL sep (a ++ sep :: b) = some (a, b) := by
  induction a with
  | nil => intro _; simp [splitFirstL]
  | cons c a' ih =>
    intro ha
    have hc : (c == sep) = false :=
      beq_eq_false_iff_ne.mpr fun hh => ha (hh ▸ List.mem_cons_self c a')
    simp [splitFirstL, hc, ih (fun hm => ha (List.mem_cons_of_mem _ hm))]

/-- Claim C3: the status parser maps each line containing a colon by
splitting on the first colon only, using the trimmed lower-cased left part
as key and the trimmed right part as value; a line without a colon
contributes nothing; and `"Status: Connected\nServer: de123"` parses to
exactly the map `{"status": "Connected", "server": "de123"}`. -/
theorem C3_status_parsing :
    (∀ (m : List (String × String)) (line : List Char), ':' ∉ line →
        LinuxVpnController.parseLine m line = m) ∧
    (∀ (m : List (String × String)) (a b : List Char), ':' ∉ a →
        LinuxVpnController.parseLine m (a ++ ':' :: b) =
          dictSet m (pyLower (pyStrip (String.mk a))) (pyStrip (String.mk b))) ∧
    LinuxVpnController._parse_status_output "Status: Connected\nServer: de123" =
      [("status", "Connected"), ("server", "de123")] := by
  refine ⟨?_, ?_, by decide⟩
  · intro m line h
    unfold LinuxVpnController.parseLine
    rw [splitFirstL_eq_none.mpr h]
  · intro m a b ha
    unfold LinuxVpnController.parseLine
    rw [splitFirstL_append a b ha]

/-- Witness for C3 at a concrete line with a colon. -/
theorem C3_status_parsing_witness :
    LinuxVpnController.parseLine [] ("Server".data ++ ':' :: " de123 ".data) =
      [("server", "de123")] := by
  rw [C3_status_parsing.2.1 [] "Server".data " de123 ".data (by decide)]
  decide

/-- Claim C10: `_is_connected` holds exactly when the trimmed lower-cased
status equals `"connected"`, or contains `"connected"` without containing
`"disconnected"`; a status containing `"disconnected"` is never connected;
free-text statuses such as `"Connected to de123"` count as connected. -/
theorem C10_is_connected_spec :
    (∀ output : String,
        LinuxVpnController._is_connected output = true ↔
          (pyLower (pyStrip (LinuxVpnController.get_status output)) = "connected" ∨
            (pyIn "connected" (pyLower (pyStrip (LinuxVpnController.get_status output))) = true ∧
             pyIn "disconnected" (pyLower (pyStrip (LinuxVpnController.get_status output))) = false))) ∧
    (∀ output : String,
        pyIn "disconnected" (pyLower (pyStrip (LinuxVpnController.get_status output))) = true →
        LinuxVpnController._is_connected output = false) ∧
    LinuxVpnController._is_connected "Status: Connected to de123" = true := by
  refine ⟨?_, ?_, by decide⟩
  · intro output
    unfold LinuxVpnController._is_connected
    simp [Bool.or_eq_true, Bool.and_eq_true, beq_iff_eq, Bool.not_eq_true']
  · intro output h
    unfold LinuxVpnController._is_connected
    have hne : (pyLower (pyStrip (LinuxVpnController.get_status output)) == "connected") = false := by
      refine beq_eq_false_iff_ne.mpr fun hEq => ?_
      rw [hEq] at h
      exact absurd h (by decide)
    simp [h, hne]

/-- Witness for C10 on a disconnected status text. -/
theorem C10_is_connected_witness :
    LinuxVpnController._is_connected "Status: Disconnected" = false :=
  C10_is_connected_spec.2.1 "Status: Disconnected" (by decide)

theorem dropWhile_eq_self_of_all {p : Char → Bool} {l : List Char}
    (h : ∀ c ∈ l, p c = false) : l.dropWhile p = l := by
  cases l with
  | nil => rfl
  | cons c rest => simp [List.dropWhile_cons, h c (List.mem_cons_self c rest)]

theorem pyStripL_of_no_ws {cs : List Char} (h : ∀ c ∈ cs, pyIsWs c = false) :
    pyStripL cs = cs := by
  unfold pyStripL
  rw [dropWhile_eq_self_of_all h,
    dropWhile_eq_self_of_all (fun c hc => h c (List.mem_reverse.mp hc)),
    List.reverse_reverse]

theorem pySplitlinesAux_no_newline :
    ∀ cs : List Char, cs ≠ [] → (∀ c ∈ cs, c ≠ '\n' ∧ c ≠ '\r') →
      ∀ acc : List Char, pySplitlinesAux false acc cs = [acc.reverse ++ cs] := by
  intro cs
  induction cs with
  | nil => intro h; exact absurd rfl h
  | cons c rest ih =>
    intro _ hall acc
    have hc := hall c (List.mem_cons_self c rest)
    have hrec : ∀ x ∈ rest, x ≠ '\n' ∧ x ≠ '\r' := fun x hx => hall x (List.mem_cons_of_mem _ hx)
    have h1 : ¬ (false = true ∧ c = '\n') := by simp
    have hstep : pySplitlinesAux false acc (c :: rest) = pySplitlinesAux false (c :: acc) rest := by
      simp only [pySplitlinesAux, if_neg h1, if_neg hc.1, if_neg hc.2]
    rcases Decidable.em (rest = []) with hrest | hrest
    · subst hrest
      rw [hstep]
      simp [pySplitlinesAux]
    · rw [hstep, ih hrest hrec (c :: acc)]
      simp

theorem find?_dictSetMap {α : Type} (l : List (String × α)) (k k' : String) (v : α)
    (h : k' ≠ k) :
    (l.map fun q => if q.1 == k' then (k', v) else q).find? (fun p => p.1 == k) =
      l.find? (fun p => p.1 == k) := by
  induction l with
  | nil => rfl
  | cons q l ih =>
    by_cases hq : q.1 == k'
    · have hq1 : q.1 = k' := eq_of_beq hq
      have h1 : (k' == k) = false := beq_eq_false_iff_ne.mpr h
      have h2 : (q.1 == k) = false := by rw [hq1]; exact h1
      simp only [List.map_cons, if_pos hq]
      rw [List.find?_cons_of_neg _ (by simp [h1]), List.find?_cons_of_neg _ (by simp [h2]), ih]
    · simp only [List.map_cons, if_neg hq]
      by_cases hq2 : q.1 == k
      · rw [List.find?_cons_of_pos _ (by simp [hq2]), List.find?_cons_of_pos _ (by simp [hq2])]
      · rw [List.find?_cons_of_neg _ (by simp [hq2]), List.find?_cons_of_neg _ (by simp [hq2]), ih]

theorem dictGet_dictSet_ne {α : Type} (m : List (String × α)) (k k' : String) (v : α)
    (h : k' ≠ k) : dictGet (dictSet m k' v) k = dictGet m k := by
  unfold dictSet dictGet
  by_cases hm : m.any (fun p => p.1 == k') = true
  · rw [if_pos hm, find?_dictSetMap m k k' v h]
  · rw [if_neg hm, List.find?_append]
    cases hf : m.find? fun p => p.1 == k with
    | some p => simp
    | none => simp [beq_eq_false_iff_ne.mpr h]

/-- Claim C2 counterexample: on the Linux variant the status query returns
the raw CLI `status` field verbatim — here `"Reconnecting"`, which is none
of `Connected`, `Disconnected`, `Unknown`. -/
theorem C2_counterexample :
    LinuxVpnController.get_status "Status: Reconnecting" = "Reconnecting" ∧
    ¬ ("Reconnecting" = "Connected" ∨ "Reconnecting" = "Disconnected" ∨
       "Reconnecting" = "Unknown") := by
  decide

/-- Claim C2 (amended): on the Windows variant every status query's `status`
field is `Connected` or `Disconnected` (hence within the claimed
three-value domain); on the Linux variant `get_status` returns the raw
CLI-reported `status` value verbatim (default `"Unknown"`), so it is not
restricted to the three values. -/
theorem C2_status_domain_amended :
    (∀ (lookup : List (String × WindowsVpnController.ServerEntry)) (currentIp : Option String),
        WindowsVpnController.get_status lookup currentIp = some "Connected" ∨
        WindowsVpnController.get_status lookup currentIp = some "Disconnected") ∧
    (∀ v : String, (∀ c ∈ v.data, c ≠ ':' ∧ c ≠ '\n' ∧ c ≠ '\r' ∧ pyIsWs c = false) →
        LinuxVpnController.get_status ("Status: " ++ v) = v) := by
  constructor
  · intro lookup currentIp
    have g2 : ∀ (m : List (String × Option String)) (w : Option String),
        dictGet (dictSet m "current ip" w) "status" = dictGet m "status" :=
      fun m w => dictGet_dictSet_ne m "status" "current ip" w (by decide)
    have g3 : ∀ (m : List (String × Option String)) (w : Option String),
        dictGet (dictSet m "current server" w) "status" = dictGet m "status" :=
      fun m w => dictGet_dictSet_ne m "status" "current server" w (by decide)
    have g4 : ∀ (m : List (String × Option String)) (w : Option String),
        dictGet (dictSet m "server name" w) "status" = dictGet m "status" :=
      fun m w => dictGet_dictSet_ne m "status" "server name" w (by decide)
    have g5 : ∀ (m : List (String × Option String)) (w : Option String),
        dictGet (dictSet m "server hostname" w) "status" = dictGet m "status" :=
      fun m w => dictGet_dictSet_ne m "status" "server hostname" w (by decide)
    simp only [WindowsVpnController.get_status, WindowsVpnController._resolve_status_snapshot]
    repeat' split
    all_goals simp_all [g2, g3, g4, g5, dictGet]
  · intro v hv
    have hdata : ("Status: " ++ v).data = "Status".data ++ ':' :: ' ' :: v.data := by
      rw [String.data_append]
      rfl
    have hall : ∀ c ∈ ("Status".data ++ ':' :: ' ' :: v.data), c ≠ '\n' ∧ c ≠ '\r' := by
      intro c hc
      rcases List.mem_append.mp hc with h1 | h1
      · fin_cases h1 <;> exact ⟨by decide, by decide⟩
      · rcases List.mem_cons.mp h1 with rfl | h1
        · exact ⟨by decide, by decide⟩
        rcases List.mem_cons.mp h1 with rfl | h1
        · exact ⟨by decide, by decide⟩
        · exact ⟨(hv c h1).2.1, (hv c h1).2.2.1⟩
    have hlines : pySplitlinesL ("Status".data ++ ':' :: ' ' :: v.data) =
        [("Status".data ++ ':' :: ' ' :: v.data)] := by
      unfold pySplitlinesL
      rw [pySplitlinesAux_no_newline _ (by simp) hall []]
      simp
    have hval : pyStrip (String.mk (' ' :: v.data)) = v := by
      unfold pyStrip pyStripL
      rw [show (' ' :: v.data).dropWhile pyIsWs = v.data.dropWhile pyIsWs by
            simp [List.dropWhile_cons, pyIsWs]]
      rw [dropWhile_eq_self_of_all (fun c hc => (hv c hc).2.2.2),
        dropWhile_eq_self_of_all (fun c hc => (hv c (List.mem_reverse.mp hc)).2.2.2),
        List.reverse_reverse]
    have hpl : LinuxVpnController.parseLine [] ("Status".data ++ ':' :: ' ' :: v.data) =
        dictSet [] (pyLower (pyStrip (String.mk "Status".data)))
          (pyStrip (String.mk (' ' :: v.data))) := by
      unfold LinuxVpnController.parseLine
      rw [splitFirstL_append "Status".data (' ' :: v.data) (by decide)]
    unfold LinuxVpnController.get_status LinuxVpnController._parse_status_output
    rw [hdata, hlines]
    rw [show List.foldl LinuxVpnController.parseLine []
          [("Status".data ++ ':' :: ' ' :: v.data)] =
        LinuxVpnController.parseLine [] ("Status".data ++ ':' :: ' ' :: v.data) from rfl]
    rw [hpl, hval]
    rw [show pyLower (pyStrip (String.mk "Status".data)) = "status" from by decide]
    simp [dictSet, dictGet]

/-- Witness for C2 (amended) at a concrete raw status value. -/
theorem C2_status_domain_witness :
    LinuxVpnController.get_status ("Status: " ++ "Rebooting") = "Rebooting" :=
  C2_status_domain_amended.2 "Rebooting" (by decide)

/-- Claim C9: with an empty (never populated) server lookup table, every
Windows status query reports Disconnected and no connected server, for
every public IP the external lookup may return. -/
theorem C9_empty_lookup_disconnected :
    ∀ currentIp : Option String,
      WindowsVpnController.get_status [] currentIp = some "Disconnected" ∧
      WindowsVpnController.get_connected_server [] currentIp = none := by
  intro currentIp
  have hb1 : (("status" : String) == "current server") = false := by decide
  have hb2 : (("current ip" : String) == "current server") = false := by decide
  have hb3 : (("status" : String) == "current ip") = false := by decide
  have hsrv : (if pyTruthy (WindowsVpnController._normalize_ip currentIp) then
      WindowsVpnController.lookupGet [] ((WindowsVpnController._normalize_ip currentIp).getD "")
    else none) = none := by
    split <;> rfl
  constructor
  · simp only [WindowsVpnController.get_status,
      WindowsVpnController._resolve_status_snapshot, hsrv]
    split <;> simp [dictGet, dictSet, hb1, hb2, hb3]
  · simp only [WindowsVpnController.get_connected_server,
      WindowsVpnController._resolve_status_snapshot, hsrv]
    split <;> simp [dictGet, dictSet, hb1, hb2, hb3]

theorem le_foldr_max (l : List ℚ) (x : ℚ) (hx : x ∈ l) : x ≤ l.foldr max 0 := by
  induction l with
  | nil => cases hx
  | cons a l ih =>
    rcases List.mem_cons.mp hx with rfl | hx
    · exact le_max_left _ _
    · exact le_trans (ih hx) (le_max_right _ _)

/-- Claim C5: stability is declared in exactly those sampling states where
the window holds exactly `stability_window` samples, the most recent sample
exceeds `threshold_mb`, and `(max |s - mean| / mean) * 100 ≤ variance_pct`;
and with an outlier sample in the window whose deviation exceeds the
allowed bound, stability is not declared — so not until the outlier has
left the window. -/
theorem C5_stability :
    (∀ (th var : ℚ) (w : Nat) (samples : List ℚ) (mem : ℚ),
        WindowsVpnController.stableAt th w var samples mem = true ↔
          (th < mem ∧ samples.length = w ∧
            (WindowsVpnController.maxDev samples (samples.sum / (w : ℚ)) /
              (samples.sum / (w : ℚ))) * 100 ≤ var)) ∧
    (∀ (th var : ℚ) (w : Nat) (samples : List ℚ) (mem o : ℚ),
        0 ≤ th → (∀ s ∈ samples, 0 ≤ s) → mem ∈ samples → o ∈ samples →
        var * (samples.sum / (w : ℚ)) < |o - samples.sum / (w : ℚ)| * 100 →
        WindowsVpnController.stableAt th w var samples mem = false) := by
  constructor
  · intro th var w samples mem
    unfold WindowsVpnController.stableAt
    by_cases h : th < mem ∧ samples.length = w
    · rw [if_pos h]
      simp [h.1, h.2, decide_eq_true_eq]
    · rw [if_neg h]
      simp only [Bool.false_eq_true, false_iff]
      intro hc
      exact h ⟨hc.1, hc.2.1⟩
  · intro th var w samples mem o hth hpos hmem ho hdev
    unfold WindowsVpnController.stableAt
    by_cases h : th < mem ∧ samples.length = w
    · rw [if_pos h]
      have hsum : 0 < samples.sum :=
        lt_of_lt_of_le (lt_of_le_of_lt hth h.1) (List.single_le_sum hpos mem hmem)
      have hw : 0 < (w : ℚ) := by
        have hne : samples ≠ [] := by rintro rfl; cases hmem
        have hlen : 0 < samples.length := List.length_pos.mpr hne
        rw [← h.2]
        exact_mod_cast hlen
      have havgpos : 0 < samples.sum / (w : ℚ) := div_pos hsum hw
      have hmax : |o - samples.sum / (w : ℚ)| ≤
          WindowsVpnController.maxDev samples (samples.sum / (w : ℚ)) := by
        unfold WindowsVpnController.maxDev
        exact le_foldr_max _ _ (List.mem_map_of_mem _ ho)
      have hlt : var < (WindowsVpnController.maxDev samples (samples.sum / (w : ℚ)) /
          (samples.sum / (w : ℚ))) * 100 := by
        rw [div_mul_eq_mul_div, lt_div_iff₀ havgpos]
        calc var * (samples.sum / (w : ℚ))
            < |o - samples.sum / (w : ℚ)| * 100 := hdev
          _ ≤ WindowsVpnController.maxDev samples (samples.sum / (w : ℚ)) * 100 :=
              mul_le_mul_of_nonneg_right hmax (by norm_num)
      simp [decide_eq_false_iff_not, not_le.mpr hlt]
    · rw [if_neg h]

/-- Witness for C5: a full window with one outlier is not declared stable. -/
theorem C5_stability_witness :
    WindowsVpnController.stableAt 300 6 1 [100, 100, 100, 100, 100, 700] 700 = false :=
  C5_stability.2 300 1 6 [100, 100, 100, 100, 100, 700] 700 700
    (by norm_num) (by intro s hs; fin_cases hs <;> norm_num)
    (by simp) (by simp)
    (by norm_num [List.sum_cons, List.sum_nil, abs_of_nonneg])

theorem startsWithL_append_self (ns zs : List Char) : startsWithL ns (ns ++ zs) = true := by
  induction ns with
  | nil => rfl
  | cons c ns ih => simp [startsWithL, ih]

theorem startsWithL_append_cancel (a b c : List Char) :
    startsWithL (a ++ b) (a ++ c) = startsWithL b c := by
  induction a with
  | nil => rfl
  | cons x a ih => simp [startsWithL, ih]

theorem hasSubL_of_startsWithL {ns hs : List Char} (h : startsWithL ns hs = true) :
    hasSubL ns hs = true := by
  cases hs with
  | nil =>
    cases ns with
    | nil => rfl
    | cons c t => exact absurd h (by simp [startsWithL])
  | cons c t => simp [hasSubL, h]

theorem hasSubL_append_left {ns ys : List Char} (xs : List Char) (h : hasSubL ns ys = true) :
    hasSubL ns (xs ++ ys) = true := by
  induction xs with
  | nil => simpa using h
  | cons x xs ih => simp [hasSubL, ih]

theorem hasSubL_self_append (ns zs : List Char) : hasSubL ns (ns ++ zs) = true := by
  cases ns with
  | nil => cases zs <;> simp [hasSubL, startsWithL]
  | cons c t => simp [hasSubL, startsWithL, startsWithL_append_self]

theorem waitTimeoutMsg_names_state (connected : Bool) (timeout : Nat) :
    pyIn (if connected then "connected" else "disconnected")
      (LinuxVpnController.waitTimeoutMsg connected timeout) = true := by
  cases connected <;>
  · unfold pyIn LinuxVpnController.waitTimeoutMsg
    simp only [String.data_append, List.append_assoc, if_true, if_false]
    exact hasSubL_append_left _ (hasSubL_self_append _ _)

theorem waitTimeoutMsg_names_timeout (connected : Bool) (timeout : Nat) :
    pyIn (toString timeout ++ " seconds")
      (LinuxVpnController.waitTimeoutMsg connected timeout) = true := by
  unfold pyIn LinuxVpnController.waitTimeoutMsg
  simp only [String.data_append, List.append_assoc]
  exact hasSubL_append_left _ (hasSubL_append_left _ (hasSubL_append_left _
    (hasSubL_of_startsWithL (by rw [startsWithL_append_cancel]; decide))))

/-- Claim C6: during `_wait_for_status` polling, a `NordVpnCliError` raised
by the status query behaves exactly as "desired state not yet observed"
(masking all such errors yields the same run), and when every iteration
either raises a CLI error or observes a non-desired state, the wait fails
only when the deadline elapses, with a `NordVpnCliError` whose message
names the desired state and the configured timeout duration. -/
theorem C6_wait_swallows_cli_errors :
    (∀ (q : Nat → Except VpnError String) (connected : Bool) (timeout fuel k : Nat),
        LinuxVpnController._wait_for_status q connected timeout fuel k =
          LinuxVpnController._wait_for_status (maskCli connected q) connected timeout fuel k) ∧
    (∀ (q : Nat → Except VpnError String) (connected : Bool) (timeout fuel k : Nat),
        (∀ i, (∃ m, q i = .error (.nordVpnCliError m)) ∨
              (∃ out, q i = .ok out ∧ LinuxVpnController._is_connected out ≠ connected)) →
        (LinuxVpnController._wait_for_status q connected timeout fuel k =
            .error (.nordVpnCliError (LinuxVpnController.waitTimeoutMsg connected timeout)) ∧
          pyIn (if connected then "connected" else "disconnected")
            (LinuxVpnController.waitTimeoutMsg connected timeout) = true ∧
          pyIn (toString timeout ++ " seconds")
            (LinuxVpnController.waitTimeoutMsg connected timeout) = true)) := by
  constructor
  · intro q connected timeout fuel
    induction fuel with
    | zero => intro k; rfl
    | succ n ih =>
      intro k
      cases hq : q k with
      | ok out =>
        have hm : maskCli connected q k = .ok out := by simp [maskCli, hq]
        cases hcc : LinuxVpnController._is_connected out == connected with
        | true => simp [LinuxVpnController._wait_for_status, hq, hm, hcc]
        | false =>
          simp only [LinuxVpnController._wait_for_status, hq, hm, hcc,
            Bool.false_eq_true, if_false]
          exact ih (k + 1)
      | error e =>
        cases e with
        | nordVpnCliError m =>
          have hm : maskCli connected q k = .ok (notYetOutput connected) := by
            simp [maskCli, hq]
          have hnc : (LinuxVpnController._is_connected (notYetOutput connected) == connected)
              = false := by cases connected <;> decide
          simp only [LinuxVpnController._wait_for_status, hq, hm, hnc,
            Bool.false_eq_true, if_false]
          exact ih (k + 1)
        | configurationError m =>
          have hm : maskCli connected q k = .error (.configurationError m) := by
            simp [maskCli, hq]
          simp [LinuxVpnController._wait_for_status, hq, hm]
  · intro q connected timeout fuel
    induction fuel with
    | zero =>
      intro k _
      exact ⟨rfl, waitTimeoutMsg_names_state connected timeout,
        waitTimeoutMsg_names_timeout connected timeout⟩
    | succ n ih =>
      intro k hq
      refine ⟨?_, waitTimeoutMsg_names_state connected timeout,
        waitTimeoutMsg_names_timeout connected timeout⟩
      have step : LinuxVpnController._wait_for_status q connected timeout (n + 1) k =
          LinuxVpnController._wait_for_status q connected timeout n (k + 1) := by
        rcases hq k with ⟨m, hm⟩ | ⟨out, hout, hne⟩
        · simp [LinuxVpnController._wait_for_status, hm]
        · simp [LinuxVpnController._wait_for_status, hout, beq_eq_false_iff_ne.mpr hne]
      rw [step]
      exact (ih (k + 1) hq).1

/-- Witness for C6: a query that always raises `NordVpnCliError` makes the
wait fail exactly with the deadline message. -/
theorem C6_wait_witness :
    LinuxVpnController._wait_for_status
        (fun _ => .error (.nordVpnCliError "daemon busy")) true 45 3 0 =
      .error (.nordVpnCliError (LinuxVpnController.waitTimeoutMsg true 45)) :=
  (C6_wait_swallows_cli_errors.2 (fun _ => .error (.nordVpnCliError "daemon busy"))
    true 45 3 0 (fun _ => Or.inl ⟨"daemon busy", rfl⟩)).1

theorem wait_timeout_of_never (q : Nat → Except VpnError String) (connected : Bool)
    (timeout fuel : Nat) :
    ∀ k, (∀ i, (∃ m, q i = .error (.nordVpnCliError m)) ∨
        (∃ o, q i = .ok o ∧ LinuxVpnController._is_connected o ≠ connected)) →
    LinuxVpnController._wait_for_status q connected timeout fuel k =
      .error (.nordVpnCliError (LinuxVpnController.waitTimeoutMsg connected timeout)) := by
  induction fuel with
  | zero => intro k _; rfl
  | succ n ih =>
    intro k hq
    have step : LinuxVpnController._wait_for_status q connected timeout (n + 1) k =
        LinuxVpnController._wait_for_status q connected timeout n (k + 1) := by
      rcases hq k with ⟨m, hm⟩ | ⟨o, hout, hne⟩
      · simp [LinuxVpnController._wait_for_status, hm]
      · simp [LinuxVpnController._wait_for_status, hout, beq_eq_false_iff_ne.mpr hne]
    rw [step]
    exact ih (k + 1) hq

theorem wait_ok_of_eventually (q : Nat → Except VpnError String) (connected : Bool)
    (timeout j : Nat) (o : String) (hj : q j = .ok o)
    (hcon : LinuxVpnController._is_connected o = connected) :
    ∀ fuel k, k ≤ j → j < k + fuel →
    (∀ i, k ≤ i → i < j →
      (∃ m, q i = .error (.nordVpnCliError m)) ∨
      (∃ o2, q i = .ok o2 ∧ LinuxVpnController._is_connected o2 ≠ connected)) →
    LinuxVpnController._wait_for_status q connected timeout fuel k = .ok () := by
  intro fuel
  induction fuel with
  | zero => intro k hk hlt _; omega
  | succ n ih =>
    intro k hk hlt hmid
    rcases Nat.eq_or_lt_of_le hk with rfl | hklt
    · simp [LinuxVpnController._wait_for_status, hj, hcon]
    · have step : LinuxVpnController._wait_for_status q connected timeout (n + 1) k =
          LinuxVpnController._wait_for_status q connected timeout n (k + 1) := by
        rcases hmid k (le_refl k) hklt with ⟨m, hm⟩ | ⟨o2, hout, hne⟩
        · simp [LinuxVpnController._wait_for_status, hm]
        · simp [LinuxVpnController._wait_for_status, hout, beq_eq_false_iff_ne.mpr hne]
      rw [step]
      exact ih (k + 1) hklt (by omega) (fun i h1 h2 => hmid i (by omega) h2)

/-- Claim C1 counterexample: Windows `connect` returns success as soon as
the CLI command does — it performs no status polling (its result takes no
status observation at all), so it never raises the polling-timeout error
even though `Connected` was never observed. -/
theorem C1_counterexample :
    WindowsVpnController.connect true true (.ok "") = (true, .ok ()) ∧
    (WindowsVpnController.connect true true (.ok "")).2 ≠
      .error (.nordVpnCliError (LinuxVpnController.waitTimeoutMsg true 45)) := by
  exact ⟨rfl, fun h => Except.noConfusion h⟩

/-- Claim C1 (amended): on the Linux variant, `connect` first issues the
connect command (a failing command propagates its error and no polling
outcome matters), then polls `_wait_for_status(connected=True)`: if no poll
observes `Connected`, it raises the `NordVpnCliError` timeout naming the
45-second polling deadline even though the command succeeded, and if some
poll observes `Connected` it returns successfully; symmetrically for
`disconnect` and `Disconnected`.  On the Windows variant, `connect` (and
`disconnect`) only runs the CLI command behind the readiness gate and
performs no status polling. -/
theorem C1_connect_then_poll :
    (∀ (e : VpnError) (q : Nat → Except VpnError String) (fuel : Nat),
        LinuxVpnController.connect (.error e) q fuel = .error e) ∧
    (∀ (out : String) (q : Nat → Except VpnError String) (fuel : Nat),
        (∀ i, (∃ m, q i = .error (.nordVpnCliError m)) ∨
              (∃ o, q i = .ok o ∧ LinuxVpnController._is_connected o ≠ true)) →
        LinuxVpnController.connect (.ok out) q fuel =
          .error (.nordVpnCliError (LinuxVpnController.waitTimeoutMsg true 45))) ∧
    (∀ (out : String) (q : Nat → Except VpnError String) (fuel : Nat),
        (∀ i, (∃ m, q i = .error (.nordVpnCliError m)) ∨
              (∃ o, q i = .ok o ∧ LinuxVpnController._is_connected o ≠ false)) →
        LinuxVpnController.disconnect (.ok out) q fuel =
          .error (.nordVpnCliError (LinuxVpnController.waitTimeoutMsg false 45))) ∧
    (∀ (out : String) (q : Nat → Except VpnError String) (fuel j : Nat) (o : String),
        j < fuel →
        (∀ i, i < j →
          (∃ m, q i = .error (.nordVpnCliError m)) ∨
          (∃ o2, q i = .ok o2 ∧ LinuxVpnController._is_connected o2 ≠ true)) →
        q j = .ok o → LinuxVpnController._is_connected o = true →
        LinuxVpnController.connect (.ok out) q fuel = .ok ()) ∧
    (∀ (ready stabilizes : Bool) (cmd : Except VpnError String),
        WindowsVpnController.connect ready stabilizes cmd =
          ((WindowsVpnController._run_command ready stabilizes cmd).1,
           (WindowsVpnController._run_command ready stabilizes cmd).2.map fun _ => ())) := by
  refine ⟨fun e q fuel => rfl, ?_, ?_, ?_, fun ready st cmd => rfl⟩
  · intro out q fuel hq
    exact wait_timeout_of_never q true 45 fuel 0 hq
  · intro out q fuel hq
    exact wait_timeout_of_never q false 45 fuel 0 hq
  · intro out q fuel j o hjf hmid hj hcon
    exact wait_ok_of_eventually q true 45 j o hj hcon fuel 0 (Nat.zero_le j) (by omega)
      (fun i _ h2 => hmid i h2)

/-- Witness for C1 (amended): a successful connect command followed by
polls that always read `Disconnected` ends in the 45-second timeout
error. -/
theorem C1_connect_witness :
    LinuxVpnController.connect (.ok "cmd ok") (fun _ => .ok "Status: Disconnected") 2 =
      .error (.nordVpnCliError (LinuxVpnController.waitTimeoutMsg true 45)) :=
  C1_connect_then_poll.2.1 "cmd ok" (fun _ => .ok "Status: Disconnected") 2
    (fun _ => Or.inr ⟨"Status: Disconnected", rfl, by decide⟩)

/-- Claim C7: once readiness is established the gate returns immediately
without launching; a successful stabilization establishes it; along any
later event sequence containing no `close` that finds a matching process,
the launch-and-stabilize procedure never runs again and the flag stays set;
and a `close` finding a matching `NordVPN.exe` process resets the flag. -/
theorem C7_readiness_gate_once :
    (∀ (st : Bool) (tmo : Nat),
        WindowsVpnController._wait_for_cli_ready true st tmo = (false, true, .ok ())) ∧
    (∀ tmo : Nat,
        WindowsVpnController._wait_for_cli_ready false true tmo = (true, true, .ok ())) ∧
    (∀ trace : List WindowsVpnController.WinEvent,
        (∀ e ∈ trace, WindowsVpnController.resetsFlag e = false) →
        WindowsVpnController.winLaunches true trace = 0 ∧
        WindowsVpnController.winFlagAfter true trace = true) ∧
    (∀ (procs : List ProcInfo) (force ready : Bool),
        (procs.any fun p => p.name == some "NordVPN.exe") = true →
        (WindowsVpnController.close procs force ready).2.2 = false) := by
  refine ⟨fun st tmo => rfl, fun tmo => rfl, ?_, ?_⟩
  · intro trace
    induction trace with
    | nil => intro _; exact ⟨rfl, rfl⟩
    | cons e rest ih =>
      intro h
      have he := h e (List.mem_cons_self e rest)
      have hstep : WindowsVpnController.winStep true e = (true, false) := by
        cases e with
        | runCmd st cmd => rfl
        | closeEvt procs force =>
          have hany : (procs.any fun p => p.name == some "NordVPN.exe") = false := he
          simp [WindowsVpnController.winStep, WindowsVpnController.close, hany]
      have hrest := ih (fun x hx => h x (List.mem_cons_of_mem _ hx))
      constructor
      · show (if (WindowsVpnController.winStep true e).2 then 1 else 0) +
            WindowsVpnController.winLaunches (WindowsVpnController.winStep true e).1 rest = 0
        rw [hstep]
        simpa using hrest.1
      · show WindowsVpnController.winFlagAfter (WindowsVpnController.winStep true e).1 rest = true
        rw [hstep]
        exact hrest.2
  · intro procs force ready h
    simp [WindowsVpnController.close, h]

/-- Witness for C7: two commands and a close that finds nothing, starting
from an established flag: zero launches and the flag survives. -/
theorem C7_readiness_gate_witness :
    WindowsVpnController.winLaunches true
        [WindowsVpnController.WinEvent.runCmd true (.ok "a"),
         WindowsVpnController.WinEvent.runCmd false (.ok "b"),
         WindowsVpnController.WinEvent.closeEvt [] false] = 0 ∧
    WindowsVpnController.winFlagAfter true
        [WindowsVpnController.WinEvent.runCmd true (.ok "a"),
         WindowsVpnController.WinEvent.runCmd false (.ok "b"),
         WindowsVpnController.WinEvent.closeEvt [] false] = true :=
  C7_readiness_gate_once.2.2.1 _ (by intro e he; fin_cases he <;> rfl)

/-- Claim C8 counterexample: a running process named `"NORDVPN.EXE"` equals
the Windows target name `"NordVPN.exe"` under case-insensitive comparison,
yet the Windows `close` does not select it — its comparison is exact. -/
theorem C8_counterexample :
    pyLower "NORDVPN.EXE" = pyLower "NordVPN.exe" ∧
    (WindowsVpnController.close [⟨some "NORDVPN.EXE", .exits⟩] false true).2.1 = false ∧
    (WindowsVpnController.close [⟨some "NORDVPN.EXE", .exits⟩] false true).1 =
      [(false, [])] := by
  decide

/-- Claim C8 (amended): Linux `close` selects exactly the processes whose
name matches `nordvpn`/`nordvpnd` case-insensitively, while Windows `close`
selects exactly the processes named `"NordVPN.exe"` (case-sensitively); on
both variants zero matches make `close` a no-op reporting nothing found
(the function is total, never an error); and a matched process that ignores
graceful termination under a non-forced close gets exactly one kill. -/
theorem C8_close_matching :
    (∀ (procs : List ProcInfo) (force : Bool),
        (LinuxVpnController.close procs force).1 = procs.map fun p =>
          if pyLower (p.name.getD "") = pyLower "nordvpn" ∨
              pyLower (p.name.getD "") = pyLower "nordvpnd" then
            (true, procCloseActs force p.behavior) else (false, [])) ∧
    (∀ (procs : List ProcInfo) (force ready : Bool),
        (WindowsVpnController.close procs force ready).1 = procs.map fun p =>
          if p.name = some "NordVPN.exe" then (true, procCloseActs force p.behavior)
          else (false, [])) ∧
    (∀ (procs : List ProcInfo) (force : Bool),
        (∀ p ∈ procs, ¬ (pyLower (p.name.getD "") = pyLower "nordvpn" ∨
            pyLower (p.name.getD "") = pyLower "nordvpnd")) →
        LinuxVpnController.close procs force = (procs.map fun _ => (false, []), false)) ∧
    (∀ (procs : List ProcInfo) (force ready : Bool),
        (∀ p ∈ procs, p.name ≠ some "NordVPN.exe") →
        WindowsVpnController.close procs force ready =
          (procs.map fun _ => (false, []), false, ready)) ∧
    ((procCloseActs false .hangs).count .killAct = 1 ∧
      procCloseActs false .hangs = [.terminateAct, .killAct]) := by
  have e1 : pyLower "nordvpn" = "nordvpn" := by decide
  have e2 : pyLower "nordvpnd" = "nordvpnd" := by decide
  refine ⟨?_, ?_, ?_, ?_, by decide, by decide⟩
  · intro procs force
    simp only [LinuxVpnController.close]
    refine List.map_congr_left ?_
    intro p _
    rw [e1, e2]
    by_cases h1 : pyLower (p.name.getD "") = "nordvpn"
    · simp [List.contains, List.elem, h1]
    · by_cases h2 : pyLower (p.name.getD "") = "nordvpnd"
      · simp [List.contains, List.elem, h1, h2]
      · simp [List.contains, List.elem, h1, h2,
          beq_eq_false_iff_ne.mpr h1, beq_eq_false_iff_ne.mpr h2]
  · intro procs force ready
    simp only [WindowsVpnController.close]
    refine List.map_congr_left ?_
    intro p _
    by_cases h1 : p.name = some "NordVPN.exe"
    · simp [h1]
    · simp [h1]
  · intro procs force h
    have hne : ∀ p ∈ procs, ¬ pyLower (p.name.getD "") = "nordvpn" ∧
        ¬ pyLower (p.name.getD "") = "nordvpnd" := by
      intro p hp
      have hx := h p hp
      rw [e1, e2] at hx
      push_neg at hx
      exact hx
    have h' : ∀ p ∈ procs,
        (["nordvpn", "nordvpnd"].contains (pyLower (p.name.getD ""))) = false := by
      intro p hp
      simp only [List.contains, List.elem]
      simp [beq_eq_false_iff_ne.mpr (hne p hp).1, beq_eq_false_iff_ne.mpr (hne p hp).2]
    simp only [LinuxVpnController.close, Prod.mk.injEq]
    constructor
    · refine List.map_congr_left fun p hp => ?_
      simp [h' p hp, (hne p hp).1, (hne p hp).2]
    · refine List.any_eq_false.mpr fun p hp => ?_
      simp [h' p hp, (hne p hp).1, (hne p hp).2]
  · intro procs force ready h
    have h' : ∀ p ∈ procs, (p.name == some "NordVPN.exe") = false :=
      fun p hp => beq_eq_false_iff_ne.mpr (h p hp)
    simp only [WindowsVpnController.close, Prod.mk.injEq]
    refine ⟨List.map_congr_left fun p hp => by simp [h' p hp], ?_, ?_⟩
    · exact List.any_eq_false.mpr fun p hp => by simp [h' p hp]
    · rw [if_neg]
      intro hc
      rcases List.any_eq_true.mp hc with ⟨p, hp, hb⟩
      rw [h' p hp] at hb
      cases hb

/-- Witness for C8: closing with no matching process is a found-nothing
no-op. -/
theorem C8_close_witness :
    LinuxVpnController.close [⟨some "chrome", ProcBehavior.exits⟩] false =
      ([(false, [])], false) := by
  have h := C8_close_matching.2.2.1 [⟨some "chrome", ProcBehavior.exits⟩] false
    (by intro p hp; fin_cases hp; decide)
  simpa using h

theorem digitsRevFuel_stable (b2 : Nat) :
    ∀ n fuel, n ≤ fuel → digitsRevFuel b2 fuel n = digitsRevFuel b2 n n := by
  intro n
  induction n using Nat.strong_induction_on with
  | _ n ih =>
    intro fuel hf
    cases n with
    | zero => cases fuel <;> rfl
    | succ m =>
      cases fuel with
      | zero => omega
      | succ f =>
        have hlt : (m + 1) / (b2 + 2) < m + 1 := Nat.div_lt_self (Nat.succ_pos m) (by omega)
        have hq : (m + 1) / (b2 + 2) ≤ m := Nat.lt_succ_iff.mp hlt
        have hf' : m ≤ f := Nat.succ_le_succ_iff.mp hf
        show (m + 1) % (b2 + 2) :: digitsRevFuel b2 f ((m + 1) / (b2 + 2)) =
          (m + 1) % (b2 + 2) :: digitsRevFuel b2 m ((m + 1) / (b2 + 2))
        rw [ih _ hlt f (le_trans hq hf'), ih _ hlt m hq]

theorem digitsRevB_succ (b2 m : Nat) :
    digitsRevB b2 (m + 1) = (m + 1) % (b2 + 2) :: digitsRevB b2 ((m + 1) / (b2 + 2)) := by
  have hlt : (m + 1) / (b2 + 2) < m + 1 := Nat.div_lt_self (Nat.succ_pos m) (by omega)
  have hq : (m + 1) / (b2 + 2) ≤ m := Nat.lt_succ_iff.mp hlt
  show (m + 1) % (b2 + 2) :: digitsRevFuel b2 m ((m + 1) / (b2 + 2)) = _
  rw [digitsRevFuel_stable b2 _ m hq]
  rfl

theorem valRev_digitsRevB (b2 : Nat) :
    ∀ n, (digitsRevB b2 n).foldr (fun d acc => d + (b2 + 2) * acc) 0 = n := by
  intro n
  induction n using Nat.strong_induction_on with
  | _ n ih =>
    cases n with
    | zero => rfl
    | succ m =>
      rw [digitsRevB_succ]
      simp only [List.foldr_cons]
      rw [ih _ (Nat.div_lt_self (Nat.succ_pos m) (by omega))]
      exact Nat.mod_add_div (m + 1) (b2 + 2)

theorem digitsRevB_lt (b2 : Nat) : ∀ n, ∀ d ∈ digitsRevB b2 n, d < b2 + 2 := by
  intro n
  induction n using Nat.strong_induction_on with
  | _ n ih =>
    cases n with
    | zero =>
      intro d hd
      simp [digitsRevB, digitsRevFuel] at hd
    | succ m =>
      intro d hd
      rw [digitsRevB_succ] at hd
      rcases List.mem_cons.mp hd with rfl | hd
      · exact Nat.mod_lt _ (by omega)
      · exact ih _ (Nat.div_lt_self (Nat.succ_pos m) (by omega)) d hd

theorem digitsRevB_length_le (b2 : Nat) :
    ∀ k n, n < (b2 + 2) ^ k → (digitsRevB b2 n).length ≤ k := by
  intro k
  induction k with
  | zero =>
    intro n hn
    have h0 : n = 0 := by simpa using hn
    subst h0
    simp [digitsRevB, digitsRevFuel]
  | succ k ih =>
    intro n hn
    cases n with
    | zero => simp [digitsRevB, digitsRevFuel]
    | succ m =>
      rw [digitsRevB_succ]
      simp only [List.length_cons]
      have hq : (m + 1) / (b2 + 2) < (b2 + 2) ^ k := by
        rw [Nat.div_lt_iff_lt_mul (by omega)]
        calc m + 1 < (b2 + 2) ^ (k + 1) := hn
          _ = (b2 + 2) ^ k * (b2 + 2) := by ring
      exact Nat.succ_le_succ (ih _ hq)

theorem foldl_digitsOfB (b2 n : Nat) :
    (digitsOfB b2 n).foldl (fun a d => a * (b2 + 2) + d) 0 = n := by
  unfold digitsOfB
  by_cases h : n = 0
  · subst h; simp
  · rw [if_neg h, List.foldl_reverse]
    have hcomm : (fun (y : Nat) (x : Nat) => (fun a d => a * (b2 + 2) + d) x y) =
        fun d acc => d + (b2 + 2) * acc := by
      funext x y
      ring
    rw [hcomm, valRev_digitsRevB]

theorem digitsOfB_ne_nil (b2 n : Nat) : digitsOfB b2 n ≠ [] := by
  unfold digitsOfB
  by_cases h : n = 0
  · simp [h]
  · rw [if_neg h]
    cases n with
    | zero => exact absurd rfl h
    | succ m =>
      rw [digitsRevB_succ]
      simp

theorem digitsOfB_lt (b2 n : Nat) : ∀ d ∈ digitsOfB b2 n, d < b2 + 2 := by
  unfold digitsOfB
  by_cases h : n = 0
  · simp [h]
  · rw [if_neg h]
    intro d hd
    exact digitsRevB_lt b2 n d (List.mem_reverse.mp hd)

theorem digitsOfB_length_le (b2 k n : Nat) (hk : 1 ≤ k) (hn : n < (b2 + 2) ^ k) :
    (digitsOfB b2 n).length ≤ k := by
  unfold digitsOfB
  by_cases h : n = 0
  · simpa [h] using hk
  · rw [if_neg h]
    simpa using digitsRevB_length_le b2 k n hn

theorem hexDigitChar_facts :
    ∀ d, d < 16 → isHexDigitPy (hexDigitChar d) = true ∧ hexCharVal (hexDigitChar d) = d := by
  decide

theorem hexStrL_all_hex (n : Nat) : ∀ c ∈ hexStrL n, isHexDigitPy c = true := by
  intro c hc
  rcases List.mem_map.mp hc with ⟨d, hd, rfl⟩
  exact (hexDigitChar_facts d (digitsOfB_lt 14 n d hd)).1

theorem hexStrL_ne_nil (n : Nat) : hexStrL n ≠ [] := by
  unfold hexStrL
  simp [digitsOfB_ne_nil]

theorem hexStrL_length_le (n : Nat) (h : n < 65536) : (hexStrL n).length ≤ 4 := by
  unfold hexStrL
  rw [List.length_map]
  exact digitsOfB_length_le 14 4 n (by omega) (by norm_num; omega)

theorem hexValL_hexStrL (n : Nat) : hexValL (hexStrL n) = n := by
  unfold hexValL hexStrL
  rw [List.foldl_map]
  have hgen : ∀ (l : List Nat), (∀ d ∈ l, d < 16) → ∀ a : Nat,
      l.foldl (fun a d => a * 16 + hexCharVal (hexDigitChar d)) a =
      l.foldl (fun a d => a * 16 + d) a := by
    intro l
    induction l with
    | nil => intro _ a; rfl
    | cons d l ih =>
      intro hl a
      simp only [List.foldl_cons]
      rw [(hexDigitChar_facts d (hl d (List.mem_cons_self d l))).2]
      exact ih (fun x hx => hl x (List.mem_cons_of_mem _ hx)) _
  rw [hgen _ (digitsOfB_lt 14 n)]
  exact foldl_digitsOfB 14 n

theorem parse_hextet_hexStrL (g : Nat) (hg : g < 65536) :
    _parse_hextet (hexStrL g) = some g := by
  unfold _parse_hextet
  rw [if_pos ⟨List.all_eq_true.mpr fun c hc => hexStrL_all_hex g c hc,
    hexStrL_length_le g hg, hexStrL_ne_nil g⟩]
  rw [hexValL_hexStrL]

set_option maxRecDepth 8000 in
theorem parse_octet_decStrL : ∀ k, k < 256 → _parse_octet (decStrL k) = some k := by
  decide

theorem hexStrL_eq_zero_iff (g : Nat) (hg : g < 65536) : hexStrL g = ['0'] ↔ g = 0 := by
  constructor
  · intro h
    have h1 := parse_hextet_hexStrL g hg
    rw [h] at h1
    have h2 : _parse_hextet ['0'] = some 0 := by decide
    exact Option.some.inj (h1.symm.trans h2)
  · rintro rfl
    decide

theorem pyIsWs_cases (c : Char) (h : pyIsWs c = true) :
    c = ' ' ∨ c = '\t' ∨ c = '\n' ∨ c = '\r' ∨ c = '\x0b' ∨ c = '\x0c' := by
  have h' := h
  simp only [pyIsWs, Bool.or_eq_true, beq_iff_eq] at h'
  tauto

theorem isHexDigitPy_ne (c : Char) (h : isHexDigitPy c = true) :
    c ≠ ':' ∧ c ≠ '.' ∧ c ≠ '%' ∧ c ≠ '/' ∧ c ≠ '[' ∧ c ≠ ']' ∧ pyIsWs c = false := by
  refine ⟨?_, ?_, ?_, ?_, ?_, ?_, ?_⟩
  · rintro rfl; exact absurd h (by decide)
  · rintro rfl; exact absurd h (by decide)
  · rintro rfl; exact absurd h (by decide)
  · rintro rfl; exact absurd h (by decide)
  · rintro rfl; exact absurd h (by decide)
  · rintro rfl; exact absurd h (by decide)
  · cases hws : pyIsWs c with
    | false => rfl
    | true =>
      rcases pyIsWs_cases c hws with rfl | rfl | rfl | rfl | rfl | rfl <;>
        exact absurd h (by decide)

theorem isDecDigit_ne (c : Char) (h : isDecDigit c = true) :
    c ≠ ':' ∧ c ≠ '.' ∧ c ≠ '%' ∧ c ≠ '/' ∧ c ≠ '[' ∧ c ≠ ']' ∧ pyIsWs c = false := by
  refine ⟨?_, ?_, ?_, ?_, ?_, ?_, ?_⟩
  · rintro rfl; exact absurd h (by decide)
  · rintro rfl; exact absurd h (by decide)
  · rintro rfl; exact absurd h (by decide)
  · rintro rfl; exact absurd h (by decide)
  · rintro rfl; exact absurd h (by decide)
  · rintro rfl; exact absurd h (by decide)
  · cases hws : pyIsWs c with
    | false => rfl
    | true =>
      rcases pyIsWs_cases c hws with rfl | rfl | rfl | rfl | rfl | rfl <;>
        exact absurd h (by decide)

theorem pySplitCharAux_no_sep (sep : Char) :
    ∀ cs acc, sep ∉ cs → pySplitCharAux sep acc cs = [acc.reverse ++ cs] := by
  intro cs
  induction cs with
  | nil => intro acc _; simp [pySplitCharAux]
  | cons c rest ih =>
    intro acc h
    have hc : (c == sep) = false :=
      beq_eq_false_iff_ne.mpr fun hh => h (hh ▸ List.mem_cons_self c rest)
    simp only [pySplitCharAux, hc, Bool.false_eq_true, if_false]
    rw [ih (c :: acc) (fun hm => h (List.mem_cons_of_mem _ hm))]
    simp

theorem pySplitCharAux_sep_split (sep : Char) :
    ∀ p rest acc, sep ∉ p →
      pySplitCharAux sep acc (p ++ sep :: rest) =
        (acc.reverse ++ p) :: pySplitCharAux sep [] rest := by
  intro p
  induction p with
  | nil =>
    intro rest acc _
    simp [pySplitCharAux]
  | cons c p ih =>
    intro rest acc h
    have hc : (c == sep) = false :=
      beq_eq_false_iff_ne.mpr fun hh => h (hh ▸ List.mem_cons_self c p)
    simp only [List.cons_append, pySplitCharAux, hc, Bool.false_eq_true, if_false,
      List.append_eq]
    rw [ih rest (c :: acc) (fun hm => h (List.mem_cons_of_mem _ hm))]
    simp

theorem pySplitChar_joinChar (sep : Char) :
    ∀ parts : List (List Char), parts ≠ [] → (∀ p ∈ parts, sep ∉ p) →
      pySplitChar sep (joinChar sep parts) = parts := by
  intro parts
  induction parts with
  | nil => intro h; exact absurd rfl h
  | cons p rest ih =>
    intro _ hall
    cases rest with
    | nil =>
      show pySplitCharAux sep [] (joinChar sep [p]) = [p]
      rw [show joinChar sep [p] = p from rfl,
        pySplitCharAux_no_sep sep p [] (hall p (List.mem_cons_self _ _))]
      simp
    | cons q rest' =>
      show pySplitCharAux sep [] (joinChar sep (p :: q :: rest')) = p :: q :: rest'
      rw [show joinChar sep (p :: q :: rest') = p ++ sep :: joinChar sep (q :: rest') from rfl,
        pySplitCharAux_sep_split sep p _ [] (hall p (List.mem_cons_self _ _))]
      simp only [List.reverse_nil, List.nil_append]
      congr 1
      exact ih (by simp) (fun x hx => hall x (List.mem_cons_of_mem _ hx))

theorem pySplitCharAux_ne_nil (sep : Char) :
    ∀ cs acc, pySplitCharAux sep acc cs ≠ [] := by
  intro cs
  induction cs with
  | nil => intro acc; simp [pySplitCharAux]
  | cons c rest ih =>
    intro acc
    by_cases hc : (c == sep) = true
    · simp [pySplitCharAux, hc]
    · simp only [pySplitCharAux, hc, Bool.false_eq_true, if_false]
      exact ih (c :: acc)

theorem joinChar_pySplitCharAux (sep : Char) :
    ∀ cs acc, joinChar sep (pySplitCharAux sep acc cs) = acc.reverse ++ cs := by
  intro cs
  induction cs with
  | nil => intro acc; simp [pySplitCharAux, joinChar]
  | cons c rest ih =>
    intro acc
    by_cases hc : (c == sep) = true
    · have hcs : c = sep := eq_of_beq hc
      simp only [pySplitCharAux, hc, if_true]
      rcases List.exists_cons_of_ne_nil (pySplitCharAux_ne_nil sep rest []) with ⟨y, t, hyt⟩
      rw [hyt, show joinChar sep (acc.reverse :: y :: t) =
        acc.reverse ++ sep :: joinChar sep (y :: t) from rfl, ← hyt, ih []]
      simp [hcs]
    · simp only [pySplitCharAux, hc, Bool.false_eq_true, if_false]
      rw [ih (c :: acc)]
      simp

theorem joinChar_pySplitChar (sep : Char) (cs : List Char) :
    joinChar sep (pySplitChar sep cs) = cs :=
  joinChar_pySplitCharAux sep cs []

theorem joinChar_mem (sep : Char) :
    ∀ (parts : List (List Char)) (c : Char), c ∈ joinChar sep parts →
      c = sep ∨ ∃ p ∈ parts, c ∈ p := by
  intro parts
  induction parts with
  | nil => intro c hc; cases hc
  | cons p rest ih =>
    intro c hc
    cases rest with
    | nil => exact Or.inr ⟨p, List.mem_cons_self _ _, hc⟩
    | cons q rest' =>
      rw [show joinChar sep (p :: q :: rest') = p ++ sep :: joinChar sep (q :: rest') from
        rfl] at hc
      rcases List.mem_append.mp hc with h1 | h1
      · exact Or.inr ⟨p, List.mem_cons_self _ _, h1⟩
      · rcases List.mem_cons.mp h1 with rfl | h1
        · exact Or.inl rfl
        · rcases ih c h1 with h2 | ⟨x, hx, hcx⟩
          · exact Or.inl h2
          · exact Or.inr ⟨x, List.mem_cons_of_mem _ hx, hcx⟩

theorem decDigitChar_fact : ∀ d, d < 10 → isDecDigit (Char.ofNat (48 + d)) = true := by
  decide

theorem decStrL_all_dec (n : Nat) : ∀ c ∈ decStrL n, isDecDigit c = true := by
  intro c hc
  rcases List.mem_map.mp hc with ⟨d, hd, rfl⟩
  exact decDigitChar_fact d (digitsOfB_lt 8 n d hd)

theorem dot_not_mem_decStrL (x : Nat) : '.' ∉ decStrL x :=
  fun h => absurd (decStrL_all_dec x '.' h) (by decide)

theorem mapM_octet_none (l : List (List Char)) (p : List Char) (hp : p ∈ l)
    (hnone : _parse_octet p = none) : l.mapM _parse_octet = none := by
  rw [← List.mapM'_eq_mapM]
  revert hp
  induction l with
  | nil => intro hp; cases hp
  | cons x l ih =>
    intro hp
    rcases List.mem_cons.mp hp with rfl | hp
    · simp [List.mapM', hnone]
    · cases hx : _parse_octet x with
      | none => simp [List.mapM', hx]
      | some v => simp [List.mapM', hx, ih hp]

theorem parseIPv4L_ipv4StrL (n : Nat) (hn : n < 4294967296) :
    parseIPv4L (ipv4StrL n) = some n := by
  unfold parseIPv4L ipv4StrL
  rw [pySplitChar_joinChar '.' _ (by simp)
    (by intro p hp; fin_cases hp <;> exact dot_not_mem_decStrL _)]
  rw [if_neg (by simp)]
  rw [show [decStrL (n / 16777216 % 256), decStrL (n / 65536 % 256), decStrL (n / 256 % 256),
      decStrL (n % 256)].mapM _parse_octet =
    some [n / 16777216 % 256, n / 65536 % 256, n / 256 % 256, n % 256] by
      simp only [List.mapM_cons, List.mapM_nil,
        parse_octet_decStrL (n / 16777216 % 256) (Nat.mod_lt _ (by norm_num)),
        parse_octet_decStrL (n / 65536 % 256) (Nat.mod_lt _ (by norm_num)),
        parse_octet_decStrL (n / 256 % 256) (Nat.mod_lt _ (by norm_num)),
        parse_octet_decStrL (n % 256) (Nat.mod_lt _ (by norm_num))]
      rfl]
  simp only [List.foldl_cons, List.foldl_nil]
  congr 1
  omega

theorem parseIPv4L_none_of_colon (cs : List Char) (h : ':' ∈ cs) : parseIPv4L cs = none := by
  unfold parseIPv4L
  by_cases hlen : (pySplitChar '.' cs).length ≠ 4
  · simp [hlen]
  · have hcs : ':' ∈ joinChar '.' (pySplitChar '.' cs) := by
      rw [joinChar_pySplitChar]; exact h
    rcases joinChar_mem '.' _ ':' hcs with h1 | ⟨p, hp, hcp⟩
    · exact absurd h1 (by decide)
    · have hoct : _parse_octet p = none := by
        unfold _parse_octet
        rw [if_neg (List.ne_nil_of_mem hcp)]
        rw [if_pos (by
          intro hall
          rcases List.all_eq_true.mp hall ':' hcp with hbad
          exact absurd hbad (by decide))]
      rw [if_neg hlen, mapM_octet_none _ p hp hoct]

theorem ipv4StrL_chars (n : Nat) : ∀ c ∈ ipv4StrL n, isDecDigit c = true ∨ c = '.' := by
  intro c hc
  rcases joinChar_mem '.' _ c hc with rfl | ⟨p, hp, hcp⟩
  · exact Or.inr rfl
  · fin_cases hp <;> exact Or.inl (decStrL_all_dec _ c hcp)

theorem compressScan_sound (Z : Nat → Prop) :
    ∀ (rest : List (List Char)) (idx : Nat) (best cur : Option (Nat × Nat)),
      (∀ i, i < rest.length → rest.getD i [] = ['0'] → Z (idx + i)) →
      (∀ s l, best = some (s, l) → 1 ≤ l ∧ s + l ≤ idx ∧ ∀ i, i < l → Z (s + i)) →
      (∀ s l, cur = some (s, l) → 1 ≤ l ∧ s + l = idx ∧ ∀ i, i < l → Z (s + i)) →
      ∀ s l, compressScan rest idx best cur = some (s, l) →
        1 ≤ l ∧ s + l ≤ idx + rest.length ∧ ∀ i, i < l → Z (s + i) := by
  intro rest
  induction rest with
  | nil =>
    intro idx best cur _ hbest _ s l hres
    have hb := hbest s l hres
    refine ⟨hb.1, ?_, hb.2.2⟩
    simpa using hb.2.1
  | cons h t ih =>
    intro idx best cur hrest hbest hcur s l hres
    have hrest' : ∀ i, i < t.length → t.getD i [] = ['0'] → Z (idx + 1 + i) := by
      intro i hi hzi
      have hmem := hrest (i + 1) (by simpa using Nat.succ_lt_succ hi)
        (by simpa using hzi)
      rw [show idx + 1 + i = idx + (i + 1) from by omega]
      exact hmem
    by_cases hz : h = ['0']
    · have hZidx : Z idx := by
        have h0 := hrest 0 (by simp) (by simpa using hz)
        simpa using h0
      cases hcur0 : cur with
      | none =>
        rw [hcur0] at hres
        simp only [compressScan, if_pos hz] at hres
        have hcur' : ∀ s' l', (some (idx, 1) : Option (Nat × Nat)) = some (s', l') →
            1 ≤ l' ∧ s' + l' = idx + 1 ∧ ∀ i, i < l' → Z (s' + i) := by
          intro s' l' he
          cases he
          refine ⟨le_refl 1, rfl, ?_⟩
          intro i hi
          have hi0 : i = 0 := by omega
          subst hi0
          simpa using hZidx
        have hbest' : ∀ s' l',
            (if (match best with | none => 0 | some (_, l) => l) < 1 then
              some (idx, 1) else best) = some (s', l') →
            1 ≤ l' ∧ s' + l' ≤ idx + 1 ∧ ∀ i, i < l' → Z (s' + i) := by
          intro s' l' he
          split at he
          · have hc := hcur' s' l' he
            exact ⟨hc.1, le_of_eq hc.2.1, hc.2.2⟩
          · have hb := hbest s' l' he
            exact ⟨hb.1, le_trans hb.2.1 (Nat.le_succ idx), hb.2.2⟩
        have hmain := ih (idx + 1) _ _ hrest' hbest' hcur' s l hres
        refine ⟨hmain.1, ?_, hmain.2.2⟩
        have hlen := hmain.2.1
        simp only [List.length_cons]
        omega
      | some cpair =>
        obtain ⟨cs, cl⟩ := cpair
        rw [hcur0] at hres
        simp only [compressScan, if_pos hz] at hres
        have hc := hcur cs cl (by rw [hcur0])
        have hcur' : ∀ s' l', (some (cs, cl + 1) : Option (Nat × Nat)) = some (s', l') →
            1 ≤ l' ∧ s' + l' = idx + 1 ∧ ∀ i, i < l' → Z (s' + i) := by
          intro s' l' he
          cases he
          refine ⟨by omega, by omega, ?_⟩
          intro i hi
          rcases Nat.lt_succ_iff_lt_or_eq.mp hi with hi | rfl
          · exact hc.2.2 i hi
          · rw [hc.2.1]
            exact hZidx
        have hbest' : ∀ s' l',
            (if (match best with | none => 0 | some (_, l) => l) < cl + 1 then
              some (cs, cl + 1) else best) = some (s', l') →
            1 ≤ l' ∧ s' + l' ≤ idx + 1 ∧ ∀ i, i < l' → Z (s' + i) := by
          intro s' l' he
          split at he
          · have hcc := hcur' s' l' he
            exact ⟨hcc.1, le_of_eq hcc.2.1, hcc.2.2⟩
          · have hb := hbest s' l' he
            exact ⟨hb.1, le_trans hb.2.1 (Nat.le_succ idx), hb.2.2⟩
        have hmain := ih (idx + 1) _ _ hrest' hbest' hcur' s l hres
        refine ⟨hmain.1, ?_, hmain.2.2⟩
        have hlen := hmain.2.1
        simp only [List.length_cons]
        omega
    · simp only [compressScan, if_neg hz] at hres
      have hbest' : ∀ s' l', best = some (s', l') →
          1 ≤ l' ∧ s' + l' ≤ idx + 1 ∧ ∀ i, i < l' → Z (s' + i) := by
        intro s' l' he
        have hb := hbest s' l' he
        exact ⟨hb.1, le_trans hb.2.1 (Nat.le_succ idx), hb.2.2⟩
      have hmain := ih (idx + 1) best none hrest' hbest'
        (by intro s' l' he; cases he) s l hres
      refine ⟨hmain.1, ?_, hmain.2.2⟩
      have hlen := hmain.2.1
      simp only [List.length_cons]
      omega

theorem compressScan_spec (hs : List (List Char)) :
    ∀ s l, compressScan hs 0 none none = some (s, l) →
      1 ≤ l ∧ s + l ≤ hs.length ∧ ∀ i, i < l → hs.getD (s + i) [] = ['0'] := by
  intro s l hres
  have hmain := compressScan_sound (fun j => hs.getD j [] = ['0']) hs 0 none none
    (by intro i _ hz; simpa using hz)
    (by intro s' l' he; cases he)
    (by intro s' l' he; cases he) s l hres
  exact ⟨hmain.1, by simpa using hmain.2.1, hmain.2.2⟩

theorem compress_shape (hs : List (List Char)) :
    _compress_hextets hs = hs ∨
    ∃ s l, 1 < l ∧ s + l ≤ hs.length ∧ (∀ i, i < l → hs.getD (s + i) [] = ['0']) ∧
      _compress_hextets hs =
        (if s = 0 then [[]] else []) ++ hs.take s ++ [[]] ++
          (if s + l = hs.length then [[]] else hs.drop (s + l)) := by
  unfold _compress_hextets
  cases hscan : compressScan hs 0 none none with
  | none => exact Or.inl rfl
  | some p =>
    obtain ⟨s, l⟩ := p
    dsimp only
    by_cases hl : 1 < l
    · right
      have hspec := compressScan_spec hs s l hscan
      refine ⟨s, l, hl, hspec.2.1, hspec.2.2, ?_⟩
      rw [if_pos hl]
      have hs_le : s ≤ hs.length := by
        have := hspec.2.1
        omega
      by_cases hend : s + l = hs.length
      · rw [if_pos hend]
        have htake : (hs ++ [[]]).take s = hs.take s := by
          rw [List.take_append_eq_append_take]
          simp [Nat.sub_eq_zero_of_le hs_le]
        have hdrop : (hs ++ [[]]).drop (s + l) = [[]] := by
          rw [hend]
          exact List.drop_left hs [[]]
        rw [htake, hdrop]
        by_cases hs0 : s = 0
        · have h2 : l = hs.length := by omega
          simp [hs0, hend, h2]
        · simp [hs0, hend]
      · rw [if_neg hend]
        by_cases hs0 : s = 0
        · have h2 : ¬ l = hs.length := by omega
          simp [hs0, hend, h2]
        · simp [hs0, hend]
    · left
      rw [if_neg hl]

theorem foldl_shift :
    ∀ (ys : List Nat) (acc : Nat),
      ys.foldl (fun a g => a * 65536 + g) acc =
        acc * 65536 ^ ys.length + ys.foldl (fun a g => a * 65536 + g) 0 := by
  intro ys
  induction ys with
  | nil => intro acc; simp
  | cons g ys ih =>
    intro acc
    simp only [List.foldl_cons, List.length_cons]
    rw [ih (acc * 65536 + g), ih (0 * 65536 + g)]
    ring

theorem fromGroups_append (xs ys : List Nat) :
    fromGroups (xs ++ ys) = fromGroups xs * 65536 ^ ys.length + fromGroups ys := by
  unfold fromGroups
  rw [List.foldl_append, foldl_shift]

theorem fromGroups_replicate_zero (k : Nat) : fromGroups (List.replicate k 0) = 0 := by
  induction k with
  | zero => rfl
  | succ k ih =>
    rw [List.replicate_succ]
    unfold fromGroups at ih ⊢
    simpa using ih

theorem foldHextets_map :
    ∀ (gs : List Nat), (∀ g ∈ gs, g < 65536) → ∀ acc,
      foldHextets (gs.map hexStrL) acc =
        some (gs.foldl (fun a g => a * 65536 + g) acc) := by
  intro gs
  induction gs with
  | nil => intro _ acc; rfl
  | cons g gs ih =>
    intro hlt acc
    simp only [List.map_cons, foldHextets,
      parse_hextet_hexStrL g (hlt g (List.mem_cons_self _ _))]
    exact ih (fun x hx => hlt x (List.mem_cons_of_mem _ hx)) _

theorem filter_range_single (p : Nat → Bool) :
    ∀ (n j : Nat), j < n → p j = true → (∀ i, i < n → p i = true → i = j) →
      (List.range n).filter p = [j] := by
  intro n
  induction n with
  | zero => intro j hj; omega
  | succ n ih =>
    intro j hj hp huniq
    rw [List.range_succ, List.filter_append]
    by_cases hjn : j = n
    · subst hjn
      have hnil : (List.range j).filter p = [] := by
        rw [List.filter_eq_nil_iff]
        intro a ha hpa
        have haj := huniq a (by have := List.mem_range.mp ha; omega) hpa
        have ha' := List.mem_range.mp ha
        omega
      rw [hnil]
      simp [hp]
    · have hjn' : j < n := by omega
      rw [ih j hjn' hp (fun i hi hpi => huniq i (by omega) hpi)]
      have hpn : p n = false := by
        cases hpn : p n with
        | false => rfl
        | true => exact absurd (huniq n (by omega) hpn).symm hjn
      simp [hpn]

theorem getD_append_left' {α : Type} (l₁ l₂ : List α) (d : α) :
    ∀ i, i < l₁.length → (l₁ ++ l₂).getD i d = l₁.getD i d := by
  induction l₁ with
  | nil => intro i hi; exact absurd hi (by simp)
  | cons x l ih =>
    intro i hi
    cases i with
    | zero => rfl
    | succ i =>
      simp only [List.cons_append, List.getD_cons_succ]
      exact ih i (by simpa using Nat.lt_of_succ_lt_succ hi)

theorem getD_append_right' {α : Type} (l₁ l₂ : List α) (d : α) :
    ∀ i, (l₁ ++ l₂).getD (l₁.length + i) d = l₂.getD i d := by
  induction l₁ with
  | nil => intro i; simp
  | cons x l ih =>
    intro i
    have : l.length + 1 + i = (l.length + i) + 1 := by omega
    simp only [List.cons_append, List.length_cons, this, List.getD_cons_succ]
    exact ih i

theorem getD_map_hexStr_ne_nil (gs : List Nat) (i : Nat) (d : List Char)
    (hi : i < gs.length) : (gs.map hexStrL).getD i d ≠ [] := by
  rw [List.getD_eq_getElem _ _ (by simpa using hi)]
  simp only [List.getElem_map]
  exact hexStrL_ne_nil _

theorem getLastD_mem_of_ne_nil {α : Type} :
    ∀ (l : List α), l ≠ [] → ∀ d : α, l.getLastD d ∈ l := by
  intro l
  induction l with
  | nil => intro h; exact absurd rfl h
  | cons x l ih =>
    intro _ d
    cases hl : l with
    | nil => simp [List.getLastD]
    | cons y t =>
      rw [List.getLastD_cons]
      rw [hl] at ih
      exact List.mem_cons_of_mem _ (ih (by simp) x)

theorem middleEmpties_eq_single (parts : List (List Char)) (si : Nat)
    (h1 : 0 < si) (h2 : si + 1 < parts.length) (h3 : parts.getD si [' '] = [])
    (huniq : ∀ i, 0 < i → i + 1 < parts.length → parts.getD i [' '] = [] → i = si) :
    middleEmpties parts = [si] := by
  unfold middleEmpties
  refine filter_range_single _ parts.length si (by omega) (by simp only [Bool.and_eq_true, decide_eq_true_eq]; exact ⟨⟨h1, h2⟩, h3⟩) ?_
  intro i _ hpi
  simp only [Bool.and_eq_true, decide_eq_true_eq] at hpi
  exact huniq i hpi.1.1 hpi.1.2 hpi.2

theorem headD_append_ne_nil {α : Type} (l₁ l₂ : List α) (d : α) (h : l₁ ≠ []) :
    (l₁ ++ l₂).headD d = l₁.headD d := by
  cases l₁ with
  | nil => exact absurd rfl h
  | cons x t => rfl

theorem getLastD_default_irrel {α : Type} (l : List α) (h : l ≠ []) (a b : α) :
    l.getLastD a = l.getLastD b := by
  cases l with
  | nil => exact absurd rfl h
  | cons x t => rw [List.getLastD_cons, List.getLastD_cons]

theorem getLastD_append_ne_nil {α : Type} :
    ∀ (l₁ l₂ : List α), l₂ ≠ [] → ∀ d, (l₁ ++ l₂).getLastD d = l₂.getLastD d := by
  intro l₁
  induction l₁ with
  | nil => intro l₂ _ d; rfl
  | cons x l ih =>
    intro l₂ h d
    rw [List.cons_append, List.getLastD_cons]
    rw [ih l₂ h x]
    exact getLastD_default_irrel l₂ h x d

theorem headD_map_hexStr_ne_nil (gs : List Nat) (h : gs ≠ []) (d : List Char) :
    (gs.map hexStrL).headD d ≠ [] := by
  cases gs with
  | nil => exact absurd rfl h
  | cons g t => simpa using hexStrL_ne_nil g

theorem getLastD_map_hexStr_ne_nil (gs : List Nat) (h : gs ≠ []) :
    (gs.map hexStrL).getLastD [' '] ≠ [] := by
  have hm : (gs.map hexStrL).getLastD [' '] ∈ gs.map hexStrL :=
    getLastD_mem_of_ne_nil _ (by simpa using h) _
  rcases List.mem_map.mp hm with ⟨g, _, hg⟩
  rw [← hg]
  exact hexStrL_ne_nil g

theorem parseIPv6core_mid (ga gb : List Nat) (hga : ∀ g ∈ ga, g < 65536)
    (hgb : ∀ g ∈ gb, g < 65536) (hgan : ga ≠ []) (hgbn : gb ≠ [])
    (hlen : ga.length + gb.length ≤ 7) :
    parseIPv6core (ga.map hexStrL ++ [[]] ++ gb.map hexStrL) =
      some (fromGroups (ga ++ List.replicate (8 - (ga.length + gb.length)) 0 ++ gb)) := by
  have hgalen : 0 < ga.length := List.length_pos.mpr hgan
  have hgblen : 0 < gb.length := List.length_pos.mpr hgbn
  have hplen : (ga.map hexStrL ++ [[]] ++ gb.map hexStrL).length =
      ga.length + 1 + gb.length := by
    simp only [List.length_append, List.length_map, List.length_cons, List.length_nil]
  have hmid : middleEmpties (ga.map hexStrL ++ [[]] ++ gb.map hexStrL) = [ga.length] := by
    refine middleEmpties_eq_single _ ga.length hgalen (by rw [hplen]; omega) ?_ ?_
    · rw [show ga.map hexStrL ++ [[]] ++ gb.map hexStrL =
        ga.map hexStrL ++ ([[]] ++ gb.map hexStrL) from List.append_assoc _ _ _]
      rw [show ga.length = (ga.map hexStrL).length + 0 by simp]
      rw [getD_append_right']
      rfl
    · intro i hi0 hiu hempty
      by_cases hlt : i < ga.length
      · exfalso
        rw [show ga.map hexStrL ++ [[]] ++ gb.map hexStrL =
          ga.map hexStrL ++ ([[]] ++ gb.map hexStrL) from List.append_assoc _ _ _] at hempty
        rw [getD_append_left' _ _ _ i (by simpa using hlt)] at hempty
        exact getD_map_hexStr_ne_nil ga i [' '] hlt hempty
      · by_cases heq : i = ga.length
        · exact heq
        · exfalso
          have hgt : ga.length + 1 ≤ i := by omega
          rw [show ga.map hexStrL ++ [[]] ++ gb.map hexStrL =
            (ga.map hexStrL ++ [[]]) ++ gb.map hexStrL from rfl] at hempty
          rw [show i = (ga.map hexStrL ++ [[]]).length + (i - ga.length - 1) by
            simp; omega] at hempty
          rw [getD_append_right'] at hempty
          have hj : i - ga.length - 1 < gb.length := by
            rw [hplen] at hiu
            omega
          exact getD_map_hexStr_ne_nil gb _ [' '] hj hempty
  have hhead : (ga.map hexStrL ++ [[]] ++ gb.map hexStrL).headD [' '] ≠ [] := by
    rw [show ga.map hexStrL ++ [[]] ++ gb.map hexStrL =
      ga.map hexStrL ++ ([[]] ++ gb.map hexStrL) from List.append_assoc _ _ _]
    rw [headD_append_ne_nil _ _ _ (by simpa using hgan)]
    exact headD_map_hexStr_ne_nil ga hgan _
  have hlast : (ga.map hexStrL ++ [[]] ++ gb.map hexStrL).getLastD [' '] ≠ [] := by
    rw [getLastD_append_ne_nil _ _ (by simpa using hgbn)]
    exact getLastD_map_hexStr_ne_nil gb hgbn
  have htake : (ga.map hexStrL ++ [[]] ++ gb.map hexStrL).take ga.length = ga.map hexStrL := by
    rw [show ga.map hexStrL ++ [[]] ++ gb.map hexStrL =
      ga.map hexStrL ++ ([[]] ++ gb.map hexStrL) from List.append_assoc _ _ _]
    rw [show ga.length = (ga.map hexStrL).length by simp]
    exact List.take_left _ _
  have hdrop : (ga.map hexStrL ++ [[]] ++ gb.map hexStrL).drop (ga.length + 1) =
      gb.map hexStrL := by
    rw [show ga.length + 1 = (ga.map hexStrL ++ [[]]).length by simp]
    exact List.drop_left _ _
  unfold parseIPv6core
  rw [if_neg (by rw [hplen]; omega), hmid]
  dsimp only
  rw [if_neg hhead, if_neg hlast]
  dsimp only
  rw [hplen]
  rw [show ga.length + 1 + gb.length - ga.length - 1 = gb.length from by omega]
  rw [if_neg (by omega)]
  rw [htake]
  rw [show (foldHextets (ga.map hexStrL) 0 : Option Nat) =
    some (ga.foldl (fun a g => a * 65536 + g) 0) from foldHextets_map ga hga 0]
  dsimp only
  rw [show ga.length + 1 + gb.length - gb.length = ga.length + 1 from by omega]
  rw [hdrop]
  rw [foldHextets_map gb hgb]
  congr 1
  rw [show ga ++ List.replicate (8 - (ga.length + gb.length)) 0 ++ gb =
    (ga ++ List.replicate (8 - (ga.length + gb.length)) 0) ++ gb from rfl]
  rw [fromGroups_append, fromGroups_append, fromGroups_replicate_zero]
  unfold fromGroups
  rw [foldl_shift]
  simp only [List.length_replicate, Nat.add_zero]

theorem parseIPv6core_left_empty (gb : List Nat) (hgb : ∀ g ∈ gb, g < 65536)
    (hgbn : gb ≠ []) (hlen : gb.length ≤ 7) :
    parseIPv6core ([[]] ++ [[]] ++ gb.map hexStrL) =
      some (fromGroups (List.replicate (8 - gb.length) 0 ++ gb)) := by
  have hgblen : 0 < gb.length := List.length_pos.mpr hgbn
  have hplen : (([[]] ++ [[]] ++ gb.map hexStrL : List (List Char))).length =
      2 + gb.length := by
    simp only [List.length_append, List.length_map, List.length_cons, List.length_nil]
  have hmid : middleEmpties ([[]] ++ [[]] ++ gb.map hexStrL) = [1] := by
    refine middleEmpties_eq_single _ 1 (by omega) (by rw [hplen]; omega) rfl ?_
    intro i hi0 hiu hempty
    by_cases h2 : 2 ≤ i
    · exfalso
      rw [show ([[]] ++ [[]] ++ gb.map hexStrL : List (List Char)) =
        ([[], []] : List (List Char)) ++ gb.map hexStrL from rfl] at hempty
      rw [show i = ([[], []] : List (List Char)).length + (i - 2) by simp; omega] at hempty
      rw [getD_append_right'] at hempty
      have hj : i - 2 < gb.length := by
        rw [hplen] at hiu
        omega
      exact getD_map_hexStr_ne_nil gb _ [' '] hj hempty
    · omega
  have hlast : (([[]] ++ [[]] ++ gb.map hexStrL : List (List Char))).getLastD [' '] ≠ [] := by
    rw [getLastD_append_ne_nil _ _ (by simpa using hgbn)]
    exact getLastD_map_hexStr_ne_nil gb hgbn
  unfold parseIPv6core
  rw [if_neg (by rw [hplen]; omega), hmid]
  dsimp only
  rw [if_pos (show (([[]] ++ [[]] ++ gb.map hexStrL : List (List Char))).headD [' '] = []
    from rfl)]
  rw [if_pos (by omega), if_neg hlast]
  dsimp only
  rw [hplen]
  rw [show 2 + gb.length - 1 - 1 = gb.length from by omega]
  rw [if_neg (by omega)]
  rw [show (([[]] ++ [[]] ++ gb.map hexStrL : List (List Char))).take 0 = [] from rfl]
  rw [show (foldHextets [] 0 : Option Nat) = some 0 from rfl]
  dsimp only
  rw [show 2 + gb.length - gb.length = 2 from by omega]
  rw [show (([[]] ++ [[]] ++ gb.map hexStrL : List (List Char))).drop 2 = gb.map hexStrL
    from rfl]
  rw [foldHextets_map gb hgb]
  congr 1
  rw [fromGroups_append, fromGroups_replicate_zero]
  simp [fromGroups]

theorem parseIPv6core_right_empty (ga : List Nat) (hga : ∀ g ∈ ga, g < 65536)
    (hgan : ga ≠ []) (hlen : ga.length ≤ 7) :
    parseIPv6core (ga.map hexStrL ++ [[]] ++ [[]]) =
      some (fromGroups (ga ++ List.replicate (8 - ga.length) 0)) := by
  have hgalen : 0 < ga.length := List.length_pos.mpr hgan
  have hplen : ((ga.map hexStrL ++ [[]] ++ [[]] : List (List Char))).length =
      ga.length + 2 := by
    simp only [List.length_append, List.length_map, List.length_cons, List.length_nil]
  have hmid : middleEmpties (ga.map hexStrL ++ [[]] ++ [[]]) = [ga.length] := by
    refine middleEmpties_eq_single _ ga.length hgalen (by rw [hplen]; omega) ?_ ?_
    · rw [show (ga.map hexStrL ++ [[]] ++ [[]] : List (List Char)) =
        ga.map hexStrL ++ ([[]] ++ [[]]) from List.append_assoc _ _ _]
      rw [show ga.length = (ga.map hexStrL).length + 0 by simp]
      rw [getD_append_right']
      rfl
    · intro i hi0 hiu hempty
      by_cases hlt : i < ga.length
      · exfalso
        rw [show (ga.map hexStrL ++ [[]] ++ [[]] : List (List Char)) =
          ga.map hexStrL ++ ([[]] ++ [[]]) from List.append_assoc _ _ _] at hempty
        rw [getD_append_left' _ _ _ i (by simpa using hlt)] at hempty
        exact getD_map_hexStr_ne_nil ga i [' '] hlt hempty
      · rw [hplen] at hiu
        omega
  have hhead : ((ga.map hexStrL ++ [[]] ++ [[]] : List (List Char))).headD [' '] ≠ [] := by
    rw [show (ga.map hexStrL ++ [[]] ++ [[]] : List (List Char)) =
      ga.map hexStrL ++ ([[]] ++ [[]]) from List.append_assoc _ _ _]
    rw [headD_append_ne_nil _ _ _ (by simpa using hgan)]
    exact headD_map_hexStr_ne_nil ga hgan _
  have hlast : ((ga.map hexStrL ++ [[]] ++ [[]] : List (List Char))).getLastD [' '] = [] := by
    rw [getLastD_append_ne_nil _ _ (by simp)]
    rfl
  have htake : ((ga.map hexStrL ++ [[]] ++ [[]] : List (List Char))).take ga.length =
      ga.map hexStrL := by
    rw [show (ga.map hexStrL ++ [[]] ++ [[]] : List (List Char)) =
      ga.map hexStrL ++ ([[]] ++ [[]]) from List.append_assoc _ _ _]
    rw [show ga.length = (ga.map hexStrL).length by simp]
    exact List.take_left _ _
  unfold parseIPv6core
  rw [if_neg (by rw [hplen]; omega), hmid]
  dsimp only
  rw [if_neg hhead, if_pos hlast]
  rw [hplen]
  rw [show ga.length + 2 - ga.length - 1 - 1 = 0 from by omega]
  rw [if_pos rfl]
  dsimp only
  rw [if_neg (by omega)]
  rw [htake]
  rw [show (foldHextets (ga.map hexStrL) 0 : Option Nat) =
    some (ga.foldl (fun a g => a * 65536 + g) 0) from foldHextets_map ga hga 0]
  dsimp only
  rw [show ga.length + 2 - 0 = ga.length + 2 from by omega]
  rw [show ((ga.map hexStrL ++ [[]] ++ [[]] : List (List Char))).drop (ga.length + 2) = []
    from by rw [← hplen]; exact List.drop_length _]
  rw [show ∀ acc : Nat, (foldHextets [] acc : Option Nat) = some acc from fun _ => rfl]
  congr 1
  rw [fromGroups_append, fromGroups_replicate_zero]
  simp only [List.length_replicate, Nat.add_zero]
  rfl

theorem parseIPv6core_full (gs : List Nat) (hlen : gs.length = 8)
    (hlt : ∀ g ∈ gs, g < 65536) :
    parseIPv6core (gs.map hexStrL) = some (fromGroups gs) := by
  have hne : gs ≠ [] := by rintro rfl; simp at hlen
  have hplen : (gs.map hexStrL).length = 8 := by simp [hlen]
  have hmid : middleEmpties (gs.map hexStrL) = [] := by
    unfold middleEmpties
    rw [List.filter_eq_nil_iff]
    intro a ha hpa
    simp only [Bool.and_eq_true, decide_eq_true_eq] at hpa
    have hlt2 : a < gs.length := by
      have h2 := hpa.1.2
      rw [hplen] at h2
      omega
    exact getD_map_hexStr_ne_nil gs a [' '] hlt2 hpa.2
  unfold parseIPv6core
  rw [if_neg (by rw [hplen]; omega), hmid]
  dsimp only
  rw [if_neg (by rw [hplen]; omega)]
  rw [if_neg (headD_map_hexStr_ne_nil gs hne _)]
  rw [if_neg (getLastD_map_hexStr_ne_nil gs hne)]
  exact foldHextets_map gs hlt 0

theorem v6Groups_lt (n : Nat) : ∀ g ∈ v6Groups n, g < 65536 := by
  intro g hg
  fin_cases hg <;> exact Nat.mod_lt _ (by norm_num)

theorem fromGroups_v6Groups (n : Nat)
    (hn : n < 340282366920938463463374607431768211456) :
    fromGroups (v6Groups n) = n := by
  unfold fromGroups v6Groups
  simp only [List.foldl_cons, List.foldl_nil]
  omega

theorem compress_elems (hs : List (List Char)) :
    ∀ p ∈ _compress_hextets hs, p = [] ∨ p ∈ hs := by
  rcases compress_shape hs with heq | ⟨s, l, _, _, _, heq⟩
  · rw [heq]
    intro p hp
    exact Or.inr hp
  · rw [heq]
    intro p hp
    rcases List.mem_append.mp hp with h1 | h1
    · rcases List.mem_append.mp h1 with h2 | h2
      · rcases List.mem_append.mp h2 with h3 | h3
        · by_cases hs0 : s = 0
          · rw [if_pos hs0] at h3
            rcases List.mem_cons.mp h3 with rfl | h3
            · exact Or.inl rfl
            · cases h3
          · rw [if_neg hs0] at h3
            cases h3
        · exact Or.inr (List.mem_of_mem_take h3)
      · rcases List.mem_cons.mp h2 with rfl | h2
        · exact Or.inl rfl
        · cases h2
    · by_cases hend : s + l = hs.length
      · rw [if_pos hend] at h1
        rcases List.mem_cons.mp h1 with rfl | h1
        · exact Or.inl rfl
        · cases h1
      · rw [if_neg hend] at h1
        exact Or.inr (List.mem_of_mem_drop h1)

theorem contains_false_of_all_hex (p : List Char) (h : ∀ c ∈ p, isHexDigitPy c = true)
    (c0 : Char) (hc0 : isHexDigitPy c0 = false) : p.contains c0 = false := by
  cases hc : p.contains c0 with
  | false => rfl
  | true =>
    have hmem : c0 ∈ p := List.elem_iff.mp hc
    rw [h c0 hmem] at hc0
    cases hc0

theorem ipv6StrL_chars (n : Nat) : ∀ c ∈ ipv6StrL n, isHexDigitPy c = true ∨ c = ':' := by
  intro c hc
  unfold ipv6StrL at hc
  rcases joinChar_mem ':' _ c hc with rfl | ⟨p, hp, hcp⟩
  · exact Or.inr rfl
  · rcases compress_elems _ p hp with rfl | hpm
    · cases hcp
    · rcases List.mem_map.mp hpm with ⟨g, _, rfl⟩
      exact Or.inl (hexStrL_all_hex g c hcp)

theorem hexCharVal_le (c : Char) : hexCharVal c ≤ 15 := by
  unfold hexCharVal
  split_ifs with h1 h2 h3
  · have h9 : c.toNat ≤ 57 := by
      have h := h1.2
      rw [Char.le_def] at h
      exact h
    omega
  · have h9 : c.toNat ≤ 102 := by
      have h := h2.2
      rw [Char.le_def] at h
      exact h
    omega
  · have h9 : c.toNat ≤ 70 := by
      have h := h3.2
      rw [Char.le_def] at h
      exact h
    omega
  · exact Nat.zero_le 15

theorem hexValL_fold_lt : ∀ (cs : List Char) (acc : Nat),
    cs.foldl (fun a c => a * 16 + hexCharVal c) acc < (acc + 1) * 16 ^ cs.length := by
  intro cs
  induction cs with
  | nil =>
    intro acc
    simpa using Nat.lt_succ_self acc
  | cons c t ih =>
    intro acc
    simp only [List.foldl_cons, List.length_cons]
    have h1 := ih (acc * 16 + hexCharVal c)
    have h2 : hexCharVal c ≤ 15 := hexCharVal_le c
    calc t.foldl (fun a c => a * 16 + hexCharVal c) (acc * 16 + hexCharVal c)
        < (acc * 16 + hexCharVal c + 1) * 16 ^ t.length := h1
      _ ≤ ((acc + 1) * 16) * 16 ^ t.length := Nat.mul_le_mul_right _ (by omega)
      _ = (acc + 1) * 16 ^ (t.length + 1) := by ring

theorem hexValL_lt (cs : List Char) : hexValL cs < 16 ^ cs.length := by
  simpa using hexValL_fold_lt cs 0

theorem parse_hextet_lt (cs : List Char) (g : Nat) (h : _parse_hextet cs = some g) :
    g < 65536 := by
  unfold _parse_hextet at h
  split_ifs at h with hc
  · obtain ⟨-, hlen, -⟩ := hc
    have h2 := hexValL_lt cs
    have h3 : (16 : Nat) ^ cs.length ≤ 16 ^ 4 := Nat.pow_le_pow_right (by norm_num) hlen
    have h4 : g = hexValL cs := (Option.some.inj h).symm
    have h5 : (16 : Nat) ^ 4 = 65536 := by norm_num
    omega

theorem foldHextets_lt : ∀ (ps : List (List Char)) (acc v : Nat),
    foldHextets ps acc = some v → v < (acc + 1) * 65536 ^ ps.length := by
  intro ps
  induction ps with
  | nil =>
    intro acc v h
    simp only [foldHextets] at h
    cases h
    simpa using Nat.lt_succ_self acc
  | cons p t ih =>
    intro acc v h
    simp only [foldHextets] at h
    cases hp : _parse_hextet p with
    | none =>
      rw [hp] at h
      cases h
    | some g =>
      rw [hp] at h
      have hg := parse_hextet_lt p g hp
      have h1 := ih (acc * 65536 + g) v h
      simp only [List.length_cons]
      calc v < (acc * 65536 + g + 1) * 65536 ^ t.length := h1
        _ ≤ ((acc + 1) * 65536) * 65536 ^ t.length := Nat.mul_le_mul_right _ (by omega)
        _ = (acc + 1) * 65536 ^ (t.length + 1) := by ring

theorem parse_octet_le (cs : List Char) (v : Nat) (h : _parse_octet cs = some v) :
    v ≤ 255 := by
  unfold _parse_octet at h
  split_ifs at h with h1 h2 h3 h4
  dsimp only at h
  split_ifs at h with h5
  cases h
  omega

theorem mapM_octet_some_facts : ∀ (l : List (List Char)) (vs : List Nat),
    l.mapM _parse_octet = some vs → vs.length = l.length ∧ ∀ x ∈ vs, x ≤ 255 := by
  intro l
  induction l with
  | nil =>
    intro vs h
    rw [List.mapM_nil] at h
    cases h
    exact ⟨rfl, by intro x hx; cases hx⟩
  | cons p t ih =>
    intro vs h
    rw [List.mapM_cons] at h
    cases hp : _parse_octet p with
    | none =>
      rw [hp] at h
      simp at h
    | some x =>
      rw [hp] at h
      cases hm : t.mapM _parse_octet with
      | none =>
        rw [hm] at h
        simp at h
      | some xs =>
        rw [hm] at h
        simp at h
        obtain ⟨hlen, hall⟩ := ih xs hm
        subst h
        refine ⟨by simp [hlen], ?_⟩
        intro y hy
        rcases List.mem_cons.mp hy with rfl | hy
        · exact parse_octet_le p y hp
        · exact hall y hy

theorem foldl256_lt : ∀ (vs : List Nat) (acc : Nat), (∀ x ∈ vs, x ≤ 255) →
    vs.foldl (fun a x => a * 256 + x) acc < (acc + 1) * 256 ^ vs.length := by
  intro vs
  induction vs with
  | nil =>
    intro acc _
    simpa using Nat.lt_succ_self acc
  | cons x t ih =>
    intro acc hall
    simp only [List.foldl_cons, List.length_cons]
    have h1 := ih (acc * 256 + x) (fun y hy => hall y (List.mem_cons_of_mem _ hy))
    have hx : x ≤ 255 := hall x (List.mem_cons_self _ _)
    calc t.foldl (fun a x => a * 256 + x) (acc * 256 + x)
        < (acc * 256 + x + 1) * 256 ^ t.length := h1
      _ ≤ ((acc + 1) * 256) * 256 ^ t.length := Nat.mul_le_mul_right _ (by omega)
      _ = (acc + 1) * 256 ^ (t.length + 1) := by ring

theorem parseIPv4L_lt (cs : List Char) (v : Nat) (h : parseIPv4L cs = some v) :
    v < 4294967296 := by
  unfold parseIPv4L at h
  by_cases h4 : (pySplitChar '.' cs).length ≠ 4
  · rw [if_pos h4] at h
    cases h
  · rw [if_neg h4] at h
    cases hm : (pySplitChar '.' cs).mapM _parse_octet with
    | none =>
      rw [hm] at h
      cases h
    | some vs =>
      rw [hm] at h
      obtain ⟨hlen, hall⟩ := mapM_octet_some_facts _ vs hm
      have hv : vs.foldl (fun a x => a * 256 + x) 0 = v := Option.some.inj h
      have hlen4 : vs.length = 4 := by omega
      have hb := foldl256_lt vs 0 hall
      rw [hlen4] at hb
      norm_num at hb
      omega

theorem parseIPv6core_lt (parts : List (List Char)) (v : Nat)
    (h : parseIPv6core parts = some v) :
    v < 340282366920938463463374607431768211456 := by
  unfold parseIPv6core at h
  by_cases h9 : 9 < parts.length
  · rw [if_pos h9] at h
    cases h
  · rw [if_neg h9] at h
    cases hmid : middleEmpties parts with
    | nil =>
      rw [hmid] at h
      dsimp only at h
      by_cases hl8 : parts.length ≠ 8
      · rw [if_pos hl8] at h
        cases h
      · rw [if_neg hl8] at h
        by_cases hh : parts.headD [' '] = []
        · rw [if_pos hh] at h
          cases h
        · rw [if_neg hh] at h
          by_cases hl : parts.getLastD [' '] = []
          · rw [if_pos hl] at h
            cases h
          · rw [if_neg hl] at h
            have hb := foldHextets_lt parts 0 v h
            have hlen : parts.length = 8 := by omega
            rw [hlen] at hb
            norm_num at hb
            omega
    | cons si tail =>
      cases tail with
      | nil =>
        rw [hmid] at h
        dsimp only at h
        split at h
        · rename_i hi lo hhi hlo
          by_cases hguard : 8 - (hi + lo) < 1
          · rw [if_pos hguard] at h
            cases h
          · rw [if_neg hguard] at h
            cases hacc : foldHextets (parts.take hi) 0 with
            | none =>
              rw [hacc] at h
              cases h
            | some acc =>
              rw [hacc] at h
              have hb1 := foldHextets_lt (parts.take hi) 0 acc hacc
              have hb2 := foldHextets_lt (parts.drop (parts.length - lo))
                (acc * 65536 ^ (8 - (hi + lo))) v h
              have hth : (parts.take hi).length ≤ hi := by
                rw [List.length_take]
                omega
              have hdl : (parts.drop (parts.length - lo)).length ≤ lo := by
                rw [List.length_drop]
                omega
              have hacc1 : acc + 1 ≤ 65536 ^ (parts.take hi).length := by
                simp only [Nat.one_mul] at hb1
                omega
              have hS : 1 ≤ 65536 ^ (8 - (hi + lo)) :=
                Nat.one_le_pow _ _ (by norm_num)
              have hstep : acc * 65536 ^ (8 - (hi + lo)) + 1 ≤
                  65536 ^ (parts.take hi).length * 65536 ^ (8 - (hi + lo)) := by
                calc acc * 65536 ^ (8 - (hi + lo)) + 1
                    ≤ acc * 65536 ^ (8 - (hi + lo)) + 65536 ^ (8 - (hi + lo)) := by omega
                  _ = (acc + 1) * 65536 ^ (8 - (hi + lo)) := by ring
                  _ ≤ 65536 ^ (parts.take hi).length * 65536 ^ (8 - (hi + lo)) :=
                      Nat.mul_le_mul_right _ hacc1
              have hv : v < 65536 ^ (parts.take hi).length * 65536 ^ (8 - (hi + lo)) *
                  65536 ^ (parts.drop (parts.length - lo)).length :=
                lt_of_lt_of_le hb2 (Nat.mul_le_mul_right _ hstep)
              rw [← pow_add, ← pow_add] at hv
              have hexp : (parts.take hi).length + (8 - (hi + lo)) +
                  (parts.drop (parts.length - lo)).length ≤ 8 := by omega
              have hmono : (65536 : Nat) ^ ((parts.take hi).length + (8 - (hi + lo)) +
                  (parts.drop (parts.length - lo)).length) ≤ 65536 ^ 8 :=
                Nat.pow_le_pow_right (by norm_num) hexp
              have h8 : (65536 : Nat) ^ 8 = 340282366920938463463374607431768211456 := by
                norm_num
              omega
        · rename_i hother
          cases h
      | cons sj tail' =>
        rw [hmid] at h
        dsimp only at h
        cases h

theorem parseIPv6L_lt (cs : List Char) (v : Nat) (h : parseIPv6L cs = some v) :
    v < 340282366920938463463374607431768211456 := by
  simp only [parseIPv6L] at h
  by_cases h3 : (pySplitChar ':' cs).length < 3
  · rw [if_pos h3] at h
    cases h
  · rw [if_neg h3] at h
    by_cases hdot : ((pySplitChar ':' cs).getLastD []).contains '.' = true
    · rw [if_pos hdot] at h
      cases h4 : parseIPv4L ((pySplitChar ':' cs).getLastD []) with
      | none =>
        rw [h4] at h
        cases h
      | some v4 =>
        rw [h4] at h
        exact parseIPv6core_lt _ v h
    · rw [if_neg hdot] at h
      exact parseIPv6core_lt _ v h

theorem contains_eq_false_of_not_mem {c : Char} {p : List Char} (h : c ∉ p) :
    p.contains c = false := by
  cases hc : p.contains c with
  | false => rfl
  | true => exact absurd (List.elem_iff.mp hc) h

theorem compress_elems_hex (n : Nat) :
    ∀ p ∈ _compress_hextets ((v6Groups n).map hexStrL), p = [] ∨ ∃ g, p = hexStrL g := by
  intro p hp
  rcases compress_elems _ p hp with rfl | hpm
  · exact Or.inl rfl
  · rcases List.mem_map.mp hpm with ⟨g, _, rfl⟩
    exact Or.inr ⟨g, rfl⟩

theorem nocolon_of_hex_parts (ps : List (List Char))
    (h : ∀ p ∈ ps, p = [] ∨ ∃ g, p = hexStrL g) : ∀ p ∈ ps, ':' ∉ p := by
  intro p hp hc
  rcases h p hp with rfl | ⟨g, rfl⟩
  · cases hc
  · exact (isHexDigitPy_ne ':' (hexStrL_all_hex g ':' hc)).1 rfl

theorem lastD_dot_false_of_hex_parts (ps : List (List Char))
    (h : ∀ p ∈ ps, p = [] ∨ ∃ g, p = hexStrL g) :
    (ps.getLastD []).contains '.' = false := by
  by_cases hps : ps = []
  · subst hps
    rfl
  · have hmem := getLastD_mem_of_ne_nil ps hps []
    rcases h _ hmem with he | ⟨g, hg⟩
    · rw [he]
      rfl
    · rw [hg]
      exact contains_false_of_all_hex _ (hexStrL_all_hex g) '.' (by decide)

theorem compress_v6_two_le (n : Nat) :
    2 ≤ (_compress_hextets ((v6Groups n).map hexStrL)).length := by
  have hsx8 : ((v6Groups n).map hexStrL).length = 8 := by
    rw [List.length_map]
    rfl
  rcases compress_shape ((v6Groups n).map hexStrL) with h | ⟨s, l, hl1, hsl, _, h⟩
  · rw [h, hsx8]
    omega
  · rw [hsx8] at hsl
    rw [h]
    split_ifs with hs0 hend hend <;>
      simp only [List.length_append, List.length_take, List.length_drop,
        List.length_cons, List.length_nil, hsx8] <;>
      omega

theorem colon_mem_ipv6StrL (m : Nat) : ':' ∈ ipv6StrL m := by
  have h2 := compress_v6_two_le m
  unfold ipv6StrL
  rcases hps : _compress_hextets ((v6Groups m).map hexStrL) with _ | ⟨p, _ | ⟨q, rest⟩⟩
  · rw [hps] at h2
    simp at h2
  · rw [hps] at h2
    simp at h2
  · show ':' ∈ p ++ ':' :: joinChar ':' (q :: rest)
    exact List.mem_append.mpr (Or.inr (List.mem_cons_self _ _))

theorem parseIPv6L_ipv6StrL (n : Nat)
    (hn : n < 340282366920938463463374607431768211456) :
    parseIPv6L (ipv6StrL n) = some n := by
  have hglt := v6Groups_lt n
  have hglen : (v6Groups n).length = 8 := rfl
  have hfe : fromGroups (v6Groups n) = n := fromGroups_v6Groups n hn
  have hsxlen : ((v6Groups n).map hexStrL).length = 8 := by
    rw [List.length_map, hglen]
  have helems := compress_elems_hex n
  have hnocol := nocolon_of_hex_parts _ helems
  have hlastdot := lastD_dot_false_of_hex_parts _ helems
  rcases compress_shape ((v6Groups n).map hexStrL) with hcomp | ⟨s, l, hl1, hsl, hzeros, hcomp⟩
  · -- no compression
    have hlen3 : 3 ≤ (_compress_hextets ((v6Groups n).map hexStrL)).length := by
      rw [hcomp, hsxlen]
      omega
    have hne : _compress_hextets ((v6Groups n).map hexStrL) ≠ [] := by
      intro h0
      rw [h0] at hlen3
      simp at hlen3
    have hsplit : pySplitChar ':' (ipv6StrL n) =
        _compress_hextets ((v6Groups n).map hexStrL) := by
      unfold ipv6StrL
      exact pySplitChar_joinChar ':' _ hne hnocol
    simp only [parseIPv6L]
    rw [hsplit]
    rw [if_neg (by omega)]
    rw [hlastdot]
    simp only [Bool.false_eq_true, if_false]
    rw [hcomp, parseIPv6core_full (v6Groups n) hglen hglt, hfe]
  · -- a run of zero hextets was compressed
    rw [hsxlen] at hsl hcomp
    have hgz : ∀ i, i < l → (v6Groups n).getD (s + i) 1 = 0 := by
      intro i hi
      have hb : s + i < 8 := by omega
      have hbx : s + i < ((v6Groups n).map hexStrL).length := by
        rw [hsxlen]
        exact hb
      have hb' : s + i < (v6Groups n).length := by
        rw [hglen]
        exact hb
      have h1 := hzeros i hi
      rw [List.getD_eq_getElem _ _ hbx, List.getElem_map] at h1
      have hlt2 : (v6Groups n)[s + i] < 65536 := hglt _ (List.getElem_mem hb')
      have h2 := (hexStrL_eq_zero_iff _ hlt2).mp h1
      rw [List.getD_eq_getElem _ _ hb', h2]
    have hdecomp : v6Groups n =
        (v6Groups n).take s ++ List.replicate l 0 ++ (v6Groups n).drop (s + l) := by
      rw [List.append_assoc]
      conv_lhs => rw [← List.take_append_drop s (v6Groups n)]
      congr 1
      rw [← List.take_append_drop l ((v6Groups n).drop s)]
      congr 1
      · rw [List.eq_replicate_iff]
        constructor
        · rw [List.length_take, List.length_drop, hglen]
          omega
        · intro b hb
          obtain ⟨i, hi, hbe⟩ := List.mem_iff_getElem.mp hb
          have hi' : i < l := by
            rw [List.length_take, List.length_drop, hglen] at hi
            omega
          rw [List.getElem_take, List.getElem_drop] at hbe
          have hb2 : s + i < (v6Groups n).length := by
            rw [hglen]
            omega
          have h0 := hgz i hi'
          rw [List.getD_eq_getElem _ _ hb2] at h0
          rw [hbe] at h0
          exact h0
      · rw [List.drop_drop]
    by_cases hs0 : s = 0
    · by_cases hend : s + l = 8
      · -- the whole address is zero
        have hl8 : l = 8 := by omega
        have hrep : v6Groups n = List.replicate 8 0 := by
          rw [hdecomp, hs0, hl8]
          rw [List.take_zero, List.drop_eq_nil_of_le (le_of_eq hglen)]
          simp
        have hn0 : n = 0 := by
          rw [← hfe, hrep]
          exact fromGroups_replicate_zero 8
        subst hn0
        decide
      · -- leading run of zeros
        subst hs0
        rw [if_pos rfl, if_neg hend] at hcomp
        simp only [List.take_zero, List.append_nil, Nat.zero_add] at hcomp
        rw [← List.map_drop] at hcomp
        simp only [List.take_zero, List.nil_append, Nat.zero_add] at hdecomp
        have hgblen : ((v6Groups n).drop l).length = 8 - l := by
          rw [List.length_drop, hglen]
        have hgb : ∀ g ∈ (v6Groups n).drop l, g < 65536 :=
          fun g hg => hglt g (List.mem_of_mem_drop hg)
        have hgbn : (v6Groups n).drop l ≠ [] := by
          intro h0
          rw [h0] at hgblen
          simp at hgblen
          omega
        have hlen3 : 3 ≤ (_compress_hextets ((v6Groups n).map hexStrL)).length := by
          rw [hcomp]
          simp only [List.length_append, List.length_map, List.length_drop,
            List.length_cons, List.length_nil, hglen]
          omega
        have hne : _compress_hextets ((v6Groups n).map hexStrL) ≠ [] := by
          intro h0
          rw [h0] at hlen3
          simp at hlen3
        have hsplit : pySplitChar ':' (ipv6StrL n) =
            _compress_hextets ((v6Groups n).map hexStrL) := by
          unfold ipv6StrL
          exact pySplitChar_joinChar ':' _ hne hnocol
        simp only [parseIPv6L]
        rw [hsplit]
        rw [if_neg (by omega)]
        rw [hlastdot]
        simp only [Bool.false_eq_true, if_false]
        rw [hcomp]
        rw [parseIPv6core_left_empty ((v6Groups n).drop l) hgb hgbn (by rw [hgblen]; omega)]
        rw [show (8 : Nat) - ((v6Groups n).drop l).length = l from by rw [hgblen]; omega]
        rw [← hdecomp, hfe]
    · by_cases hend : s + l = 8
      · -- trailing run of zeros
        rw [if_neg hs0, if_pos hend] at hcomp
        simp only [List.nil_append] at hcomp
        rw [← List.map_take] at hcomp
        have hgalen : ((v6Groups n).take s).length = s := by
          rw [List.length_take, hglen]
          omega
        have hga : ∀ g ∈ (v6Groups n).take s, g < 65536 :=
          fun g hg => hglt g (List.mem_of_mem_take hg)
        have hgan : (v6Groups n).take s ≠ [] := by
          intro h0
          rw [h0] at hgalen
          simp at hgalen
          omega
        have hlen3 : 3 ≤ (_compress_hextets ((v6Groups n).map hexStrL)).length := by
          rw [hcomp]
          simp only [List.length_append, List.length_map, List.length_take,
            List.length_cons, List.length_nil, hglen]
          omega
        have hne : _compress_hextets ((v6Groups n).map hexStrL) ≠ [] := by
          intro h0
          rw [h0] at hlen3
          simp at hlen3
        have hsplit : pySplitChar ':' (ipv6StrL n) =
            _compress_hextets ((v6Groups n).map hexStrL) := by
          unfold ipv6StrL
          exact pySplitChar_joinChar ':' _ hne hnocol
        simp only [parseIPv6L]
        rw [hsplit]
        rw [if_neg (by omega)]
        rw [hlastdot]
        simp only [Bool.false_eq_true, if_false]
        rw [hcomp]
        rw [parseIPv6core_right_empty ((v6Groups n).take s) hga hgan (by rw [hgalen]; omega)]
        rw [show (8 : Nat) - ((v6Groups n).take s).length = l from by rw [hgalen]; omega]
        rw [hend] at hdecomp
        rw [List.drop_eq_nil_of_le (le_of_eq hglen), List.append_nil] at hdecomp
        rw [← hdecomp, hfe]
      · -- run of zeros strictly inside
        rw [if_neg hs0, if_neg hend] at hcomp
        simp only [List.nil_append] at hcomp
        rw [← List.map_take, ← List.map_drop] at hcomp
        have hgalen : ((v6Groups n).take s).length = s := by
          rw [List.length_take, hglen]
          omega
        have hgblen : ((v6Groups n).drop (s + l)).length = 8 - (s + l) := by
          rw [List.length_drop, hglen]
        have hga : ∀ g ∈ (v6Groups n).take s, g < 65536 :=
          fun g hg => hglt g (List.mem_of_mem_take hg)
        have hgb : ∀ g ∈ (v6Groups n).drop (s + l), g < 65536 :=
          fun g hg => hglt g (List.mem_of_mem_drop hg)
        have hgan : (v6Groups n).take s ≠ [] := by
          intro h0
          rw [h0] at hgalen
          simp at hgalen
          omega
        have hgbn : (v6Groups n).drop (s + l) ≠ [] := by
          intro h0
          rw [h0] at hgblen
          simp at hgblen
          omega
        have hlen3 : 3 ≤ (_compress_hextets ((v6Groups n).map hexStrL)).length := by
          rw [hcomp]
          simp only [List.length_append, List.length_map, List.length_take,
            List.length_drop, List.length_cons, List.length_nil, hglen]
          omega
        have hne : _compress_hextets ((v6Groups n).map hexStrL) ≠ [] := by
          intro h0
          rw [h0] at hlen3
          simp at hlen3
        have hsplit : pySplitChar ':' (ipv6StrL n) =
            _compress_hextets ((v6Groups n).map hexStrL) := by
          unfold ipv6StrL
          exact pySplitChar_joinChar ':' _ hne hnocol
        simp only [parseIPv6L]
        rw [hsplit]
        rw [if_neg (by omega)]
        rw [hlastdot]
        simp only [Bool.false_eq_true, if_false]
        rw [hcomp]
        rw [parseIPv6core_mid ((v6Groups n).take s) ((v6Groups n).drop (s + l)) hga hgb
          hgan hgbn (by rw [hgalen, hgblen]; omega)]
        rw [show (8 : Nat) - (((v6Groups n).take s).length + ((v6Groups n).drop (s + l)).length) = l
          from by rw [hgalen, hgblen]; omega]
        rw [← hdecomp, hfe]

theorem ip_address_ipv4StrL (m : Nat) (hm : m < 4294967296) :
    ip_address (ipv4StrL m) = some (PyIpAddr.v4 m) := by
  unfold ip_address
  rw [parseIPv4L_ipv4StrL m hm]

theorem ip_address_ipv6StrL (m : Nat)
    (hm : m < 340282366920938463463374607431768211456) :
    ip_address (ipv6StrL m) = some (PyIpAddr.v6 m) := by
  unfold ip_address
  rw [parseIPv4L_none_of_colon _ (colon_mem_ipv6StrL m)]
  rw [parseIPv6L_ipv6StrL m hm]

theorem ip_address_roundtrip (cs : List Char) (a : PyIpAddr) (h : ip_address cs = some a) :
    ip_address (ipAddrStrL a) = some a := by
  unfold ip_address at h
  cases h4 : parseIPv4L cs with
  | some m =>
    rw [h4] at h
    have ha : a = PyIpAddr.v4 m := (Option.some.inj h).symm
    subst ha
    exact ip_address_ipv4StrL m (parseIPv4L_lt cs m h4)
  | none =>
    rw [h4] at h
    cases h6 : parseIPv6L cs with
    | none =>
      rw [h6] at h
      exact Option.noConfusion h
    | some m =>
      rw [h6] at h
      have ha : a = PyIpAddr.v6 m := (Option.some.inj h).symm
      subst ha
      exact ip_address_ipv6StrL m (parseIPv6L_lt cs m h6)

theorem sep_mem_joinChar (sep : Char) (p q : List Char) (rest : List (List Char)) :
    sep ∈ joinChar sep (p :: q :: rest) := by
  show sep ∈ p ++ sep :: joinChar sep (q :: rest)
  exact List.mem_append.mpr (Or.inr (List.mem_cons_self _ _))

theorem dot_mem_ipv4StrL (m : Nat) : '.' ∈ ipv4StrL m := by
  unfold ipv4StrL
  exact sep_mem_joinChar '.' _ _ _

theorem ipAddrStrL_ne_nil (a : PyIpAddr) : ipAddrStrL a ≠ [] := by
  cases a with
  | v4 m =>
    intro h0
    simp only [ipAddrStrL] at h0
    have hm := dot_mem_ipv4StrL m
    rw [h0] at hm
    cases hm
  | v6 m =>
    intro h0
    simp only [ipAddrStrL] at h0
    have hm := colon_mem_ipv6StrL m
    rw [h0] at hm
    cases hm

theorem ipAddrStrL_chars (a : PyIpAddr) :
    ∀ c ∈ ipAddrStrL a, isHexDigitPy c = true ∨ c = ':' ∨ c = '.' := by
  cases a with
  | v4 m =>
    intro c hc
    simp only [ipAddrStrL] at hc
    rcases ipv4StrL_chars m c hc with hd | rfl
    · left
      simp only [isDecDigit, Bool.and_eq_true, decide_eq_true_eq] at hd
      simp only [isHexDigitPy, Bool.or_eq_true, Bool.and_eq_true, decide_eq_true_eq]
      exact Or.inl (Or.inl hd)
    · right
      right
      rfl
  | v6 m =>
    intro c hc
    simp only [ipAddrStrL] at hc
    rcases ipv6StrL_chars m c hc with hh | rfl
    · exact Or.inl hh
    · right
      left
      rfl

theorem pyToLower_hexDigitChar (d : Nat) (hd : d < 16) :
    pyToLower (hexDigitChar d) = hexDigitChar d := by
  interval_cases d <;> decide

theorem pyToLower_decDigitChar (d : Nat) (hd : d < 10) :
    pyToLower (Char.ofNat (48 + d)) = Char.ofNat (48 + d) := by
  interval_cases d <;> decide

theorem hexStrL_lower_fixed (g : Nat) : ∀ c ∈ hexStrL g, pyToLower c = c := by
  intro c hc
  unfold hexStrL at hc
  rcases List.mem_map.mp hc with ⟨d, hd, rfl⟩
  exact pyToLower_hexDigitChar d (digitsOfB_lt 14 g d hd)

theorem decStrL_lower_fixed (k : Nat) : ∀ c ∈ decStrL k, pyToLower c = c := by
  intro c hc
  unfold decStrL at hc
  rcases List.mem_map.mp hc with ⟨d, hd, rfl⟩
  exact pyToLower_decDigitChar d (digitsOfB_lt 8 k d hd)

theorem ipv4StrL_lower_fixed (m : Nat) : ∀ c ∈ ipv4StrL m, pyToLower c = c := by
  intro c hc
  rcases joinChar_mem '.' _ c hc with rfl | ⟨p, hp, hcp⟩
  · decide
  · fin_cases hp <;> exact decStrL_lower_fixed _ c hcp

theorem ipv6StrL_lower_fixed (m : Nat) : ∀ c ∈ ipv6StrL m, pyToLower c = c := by
  intro c hc
  unfold ipv6StrL at hc
  rcases joinChar_mem ':' _ c hc with rfl | ⟨p, hp, hcp⟩
  · decide
  · rcases compress_elems _ p hp with rfl | hpm
    · cases hcp
    · rcases List.mem_map.mp hpm with ⟨g, _, rfl⟩
      exact hexStrL_lower_fixed g c hcp

theorem ipAddrStrL_lower_fixed (a : PyIpAddr) :
    pyLowerL (ipAddrStrL a) = ipAddrStrL a := by
  have hfix : ∀ c ∈ ipAddrStrL a, pyToLower c = c := by
    cases a with
    | v4 m => exact ipv4StrL_lower_fixed m
    | v6 m => exact ipv6StrL_lower_fixed m
  unfold pyLowerL
  calc (ipAddrStrL a).map pyToLower = (ipAddrStrL a).map id :=
        List.map_congr_left hfix
    _ = ipAddrStrL a := List.map_id _

theorem normalize_canonical (a : PyIpAddr) (cs : List Char) (h : ip_address cs = some a) :
    WindowsVpnController._normalize_ip (some (String.mk (ipAddrStrL a))) =
      some (String.mk (ipAddrStrL a)) := by
  have hchar := ipAddrStrL_chars a
  have hne := ipAddrStrL_ne_nil a
  have hnws : ∀ c ∈ ipAddrStrL a, pyIsWs c = false := by
    intro c hc
    rcases hchar c hc with hh | rfl | rfl
    · exact (isHexDigitPy_ne c hh).2.2.2.2.2.2
    · decide
    · decide
  have hstrip' : pyStripL (String.mk (ipAddrStrL a)).data = ipAddrStrL a :=
    pyStripL_of_no_ws hnws
  have hs0 : ¬ (String.mk (ipAddrStrL a) = "") := by
    intro h0
    exact hne (congrArg String.data h0)
  have hnotmem : pyLowerL (ipAddrStrL a) ∉ [("n/a").data, ("none").data, ("-").data] := by
    rw [ipAddrStrL_lower_fixed a]
    intro hm
    rcases List.mem_cons.mp hm with he | hm
    · have hn' : 'n' ∈ ipAddrStrL a := by
        rw [he]
        decide
      rcases hchar _ hn' with hh | hh | hh <;> exact absurd hh (by decide)
    · rcases List.mem_cons.mp hm with he | hm
      · have hn' : 'n' ∈ ipAddrStrL a := by
          rw [he]
          decide
        rcases hchar _ hn' with hh | hh | hh <;> exact absurd hh (by decide)
      · rcases List.mem_cons.mp hm with he | hm
        · have hn' : '-' ∈ ipAddrStrL a := by
            rw [he]
            decide
          rcases hchar _ hn' with hh | hh | hh <;> exact absurd hh (by decide)
        · cases hm
  have hhead : ¬ ((ipAddrStrL a).headD ' ' = '[' ∧ (ipAddrStrL a).contains ']') := by
    rintro ⟨h1, -⟩
    cases hcs' : ipAddrStrL a with
    | nil => exact hne hcs'
    | cons x t =>
      rw [hcs'] at h1
      simp only [List.headD_cons] at h1
      subst h1
      have hx : '[' ∈ ipAddrStrL a := by
        rw [hcs']
        exact List.mem_cons_self _ _
      rcases hchar _ hx with hh | hh | hh <;> exact absurd hh (by decide)
  have hpct : (ipAddrStrL a).contains '%' = false := by
    refine contains_eq_false_of_not_mem ?_
    intro hm
    rcases hchar _ hm with hh | hh | hh <;> exact absurd hh (by decide)
  have hslash : (ipAddrStrL a).contains '/' = false := by
    refine contains_eq_false_of_not_mem ?_
    intro hm
    rcases hchar _ hm with hh | hh | hh <;> exact absurd hh (by decide)
  have hround := ip_address_roundtrip cs a h
  simp only [WindowsVpnController._normalize_ip]
  rw [if_neg hs0]
  rw [hstrip']
  rw [if_neg (not_or.mpr ⟨hne, hnotmem⟩)]
  rw [if_neg hhead]
  rw [hpct]
  simp only [Bool.false_eq_true, if_false]
  rw [hslash]
  simp only [Bool.false_eq_true, if_false]
  rw [hround]

theorem normalize_ip_some_shape (v c : String)
    (h : WindowsVpnController._normalize_ip (some v) = some c) :
    ∃ a : PyIpAddr, c = String.mk (ipAddrStrL a) ∧ ∃ cs, ip_address cs = some a := by
  simp only [WindowsVpnController._normalize_ip] at h
  split at h
  · cases h
  · split at h
    · cases h
    · repeat' split at h
      all_goals cases h
      all_goals
        rename_i a heq
        exact ⟨a, rfl, _, heq⟩

/-- C4: `_normalize_ip` is idempotent on canonical IPs — whenever
normalization succeeds with result `c`, normalizing `c` again returns `c` —
and it maps `"10.0.0.1/24"` to `"10.0.0.1"`, `"[::1]"` to `"::1"`,
`"fe80::1%eth0"` to `"fe80::1"`, `"1.2.3.4:443"` to `"1.2.3.4"`, and
`"not-an-ip"` to `None`. -/
theorem C4_normalize_ip :
    (∀ v c : String, WindowsVpnController._normalize_ip (some v) = some c →
        WindowsVpnController._normalize_ip (some c) = some c) ∧
    WindowsVpnController._normalize_ip (some "10.0.0.1/24") = some "10.0.0.1" ∧
    WindowsVpnController._normalize_ip (some "[::1]") = some "::1" ∧
    WindowsVpnController._normalize_ip (some "fe80::1%eth0") = some "fe80::1" ∧
    WindowsVpnController._normalize_ip (some "1.2.3.4:443") = some "1.2.3.4" ∧
    WindowsVpnController._normalize_ip (some "not-an-ip") = none := by
  refine ⟨?_, by decide, by decide, by decide, by decide, by decide⟩
  intro v c h
  obtain ⟨a, rfl, cs, hcs⟩ := normalize_ip_some_shape v c h
  exact normalize_canonical a cs hcs

/-- Witness: the idempotence clause of `C4_normalize_ip` applied to the
concrete normalization of `"10.0.0.1/24"`. -/
theorem C4_normalize_ip_witness :
    WindowsVpnController._normalize_ip (some "10.0.0.1") = some "10.0.0.1" :=
  C4_normalize_ip.1 "10.0.0.1/24" "10.0.0.1" (by decide)
